import Mathlib

/-!
# Verification of the incremental enrichment pipeline

A shallow embedding, in Lean 4, of the core data-processing pipeline of the
blockchain-address analyzer (source files `data_processor.py`, `core_logic.py`,
`db_manager.py`, `ai_client.py`).  Python dictionaries are modelled as
structures (a field read `d.get(k, default)` becomes an `Option` field plus
`getD`), the SQLite tables as association lists in row order, machine-precision
`Decimal` arithmetic as exact `ℚ` arithmetic, and the thread-pool completion
order of the analysis stage as an arbitrary permutation of the submission
order.  External collaborators (the OKX detail provider, the Arkham label
provider, the AI analysis call, `datetime` formatting) enter as function
parameters, since only their call pattern matters to the pipeline.
-/

/-! ## Numeric helpers (`data_processor.py`)

`_safe_decimal` converts an arbitrary value with `Decimal(str(value))`,
returning `Decimal(0)` on `None`, `""` or any conversion failure.  We model a
Python value by the `PyVal` type and `Decimal`/`float` string parsing by an
executable parser `parseDec` for optionally signed decimal literals with an
optional fractional part and an optional exponent (leading/trailing whitespace
is trimmed; exotic inputs such as `"nan"`, `"Infinity"` or underscore
separators are not modelled and parse to `none`). -/

/-- All characters are decimal digits (the model of `str.isdigit`). -/
def isDigitsB (s : String) : Bool := s.toList.all Char.isDigit

/-- Numeric value of a list of decimal digit characters. -/
def digitsVal (cs : List Char) : Nat :=
  cs.foldl (fun n c => n * 10 + (c.toNat - '0'.toNat)) 0

/-- Parse `digits`, `digits.digits`, `digits.` or `.digits` (at least one
digit overall) to a non-negative rational. -/
def parseMantissa (cs : List Char) : Option ℚ :=
  let ip := cs.takeWhile Char.isDigit
  let rest := cs.dropWhile Char.isDigit
  match rest with
  | [] => if ip.isEmpty then none else some (digitsVal ip : ℚ)
  | '.' :: fp =>
    if fp.all Char.isDigit && !(ip.isEmpty && fp.isEmpty) then
      some ((digitsVal ip : ℚ) + (digitsVal fp : ℚ) / (10 : ℚ) ^ fp.length)
    else none
  | _ => none

/-- Parse an optionally signed digit string as an exponent. -/
def parseExp (cs : List Char) : Option ℤ :=
  match cs with
  | '+' :: ds => if !ds.isEmpty && ds.all Char.isDigit then some (digitsVal ds : ℤ) else none
  | '-' :: ds => if !ds.isEmpty && ds.all Char.isDigit then some (-(digitsVal ds : ℤ)) else none
  | ds => if !ds.isEmpty && ds.all Char.isDigit then some (digitsVal ds : ℤ) else none

/-- Split a character list at the first `e`/`E`, if any. -/
def splitOnExpChar (cs : List Char) : List Char × Option (List Char) :=
  let pre := cs.takeWhile (fun c => !(c == 'e' || c == 'E'))
  match cs.dropWhile (fun c => !(c == 'e' || c == 'E')) with
  | [] => (pre, none)
  | _ :: post => (pre, some post)

/-- Unsigned decimal literal with optional exponent. -/
def parseUnsignedDec (cs : List Char) : Option ℚ :=
  let (mant, expPart) := splitOnExpChar cs
  match expPart with
  | none => parseMantissa mant
  | some e =>
    match parseMantissa mant, parseExp e with
    | some m, some ex => some (m * (10 : ℚ) ^ ex)
    | _, _ => none

/-- ASCII-space trimming (the whitespace stripping both `Decimal` and `float`
perform on string input). -/
def trimSpaces (cs : List Char) : List Char :=
  ((cs.dropWhile (fun c => c == ' ')).reverse.dropWhile (fun c => c == ' ')).reverse

/-- The model of `Decimal(str(value))` / `float(value)` string parsing:
`none` exactly when the conversion would raise. -/
def parseDec (s : String) : Option ℚ :=
  match trimSpaces s.toList with
  | '+' :: cs => parseUnsignedDec cs
  | '-' :: cs => (parseUnsignedDec cs).map (fun q => -q)
  | cs => parseUnsignedDec cs

/-- The model of Python's `str.lower()` (the addresses being compared are
ASCII). -/
def lowerStr (s : String) : String := String.mk (s.toList.map Char.toLower)

/-- A Python value as it may appear in a raw API field: `None`, a string, an
integer, or any other object carrying its `str(·)` rendering. -/
inductive PyVal where
  | vnone
  | vstr (s : String)
  | vint (n : ℤ)
  | vother (reprStr : String)
deriving DecidableEq

/-- `_safe_decimal` from `data_processor.py`: `None` and `""` map to `0`, any
other value is parsed from its string rendering, and a parse failure
(`InvalidOperation`/`ValueError`/`TypeError` in the source) also maps to 0. -/
def safe_decimal : PyVal → ℚ
  | .vnone => 0
  | .vstr s => if s = "" then 0 else (parseDec s).getD 0
  | .vint n => (n : ℚ)
  | .vother r => (parseDec r).getD 0

/-- Round to the nearest integer, ties to even: the rounding used by Python's
fixed-point string formatting `f"{value:.18f}"`. -/
def roundHalfEven (x : ℚ) : ℤ :=
  let n := x.floor
  let r := x - (n : ℚ)
  if r < 1 / 2 then n
  else if 1 / 2 < r then n + 1
  else if n % 2 = 0 then n else n + 1

/-- Left-pad a digit string with zeros to the given length. -/
def padLeftZeros (s : String) (len : Nat) : String :=
  String.mk (List.replicate (len - s.length) '0') ++ s

/-- The model of `f"{value:.18f}"`: fixed-point rendering with 18 fractional
digits. -/
def fix18 (v : ℚ) : String :=
  let n := roundHalfEven (v * (10 : ℚ) ^ (18 : ℕ))
  let sign := if n < 0 then "-" else ""
  let m := n.natAbs
  sign ++ toString (m / 10 ^ 18) ++ "." ++ padLeftZeros (toString (m % 10 ^ 18)) 18

/-- `str.rstrip` with a single-character strip set. -/
def rstripChar (c : Char) (s : String) : String :=
  String.mk ((s.toList.reverse.dropWhile (fun d => d == c)).reverse)

/-- `_format_decimal` from `data_processor.py`: `0` renders as `"0"`, any other
value as its 18-digit fixed-point form with trailing zeros and a trailing dot
stripped, with an optional unit suffix. -/
def format_decimal (value : ℚ) (unit : String) : String :=
  if value = 0 then (if unit = "" then "0" else "0 " ++ unit)
  else
    let vs := rstripChar '.' (rstripChar '0' (fix18 value))
    if unit = "" then vs else vs ++ " " ++ unit

/-- `1 ETH = 10^18 Wei`. -/
def WEI_PER_ETH : ℚ := 1000000000000000000

/-- `1 Gwei = 10^9 Wei`. -/
def WEI_PER_GWEI : ℚ := 1000000000

/-- `_compute_gas_cost` from `data_processor.py`: gas cost in ETH from a gas
amount (any raw value) and a gas price in Wei.  (The Python `Decimal` context
rounds results to 28 significant digits; the exact-`ℚ` model ignores that
truncation, which the claims under verification never exercise.) -/
def compute_gas_cost (gas_amount : PyVal) (gas_price_wei : ℚ) : String :=
  let gas_units := safe_decimal gas_amount
  if gas_units = 0 ∨ gas_price_wei = 0 then "0"
  else format_decimal (gas_units * gas_price_wei / WEI_PER_ETH) ""

/-! ## Identifier extraction (`extract_tx_info_from_summary`) and dedup

The extractor walks the summary chunks in order and emits one record per raw
transaction; `run_new_analysis` then drops every record whose `txHash` was
already seen (a Python `set` of hashes).  The `datetime` rendering of a
millisecond timestamp is an opaque collaborator, passed as `fmt : Nat → String`
(it stands for `lambda ms: datetime.fromtimestamp(ms / 1000).strftime(...)`).
A `tx.get("txHash")` read can yield `None`, hence `Option String` keys. -/

/-- One raw transaction stub inside a summary chunk. -/
structure RawSummaryTx where
  chainIndex : Option String
  txHash : Option String
  txTime : Option String
deriving DecidableEq

/-- One chunk of the raw summary batch (`data_chunk.get("transactions", [])`). -/
structure SummaryChunk where
  transactions : List RawSummaryTx
deriving DecidableEq

/-- The extractor's output record. -/
structure TxInfo where
  chainIndex : Option String
  txHash : Option String
  timestamp : String
deriving DecidableEq

/-- The timestamp formatting step: non-empty digit strings are rendered through
the `datetime` collaborator, everything else becomes `""`. -/
def formatTxTime (fmt : Nat → String) (txTime : Option String) : String :=
  match txTime with
  | some s => if s ≠ "" ∧ isDigitsB s then fmt (s.toNat?.getD 0) else ""
  | none => ""

/-- `extract_tx_info_from_summary` from `data_processor.py`. -/
def extract_tx_info_from_summary (fmt : Nat → String) (raw : List SummaryChunk) : List TxInfo :=
  (raw.map (fun chunk => chunk.transactions.map (fun tx =>
    { chainIndex := tx.chainIndex
      txHash := tx.txHash
      timestamp := formatTxTime fmt tx.txTime : TxInfo }))).flatten

/-- The dedup loop of `run_new_analysis` step 1: `seen` is the set of hashes
already encountered. -/
def dedupGo (seen : List (Option String)) : List TxInfo → List TxInfo
  | [] => []
  | tx :: rest =>
    if tx.txHash ∈ seen then dedupGo seen rest
    else tx :: dedupGo (tx.txHash :: seen) rest

/-- Hash dedup of the extractor output (`unique_tx_info_list`). -/
def dedupByHash (l : List TxInfo) : List TxInfo := dedupGo [] l

/-- Spec-side characterization (from the spec's words, for refinement): keep
each record at the position of the first occurrence of its `txHash`, dropping
all later duplicates. -/
def specFirstOccurrences : List TxInfo → List TxInfo
  | [] => []
  | tx :: rest =>
    tx :: specFirstOccurrences (rest.filter (fun y => y.txHash ≠ tx.txHash))
termination_by l => l.length
decreasing_by
  simp only [List.length_cons]
  exact Nat.lt_succ_of_le (List.length_filter_le _ _)

/-! ## Internal-transfer filtering (`filter_important_internal_transactions`)

Raw internal transfers carry bare-string endpoints (`tx.get("from", "")`),
contract flags defaulting to `False`, and an amount string converted with
`float(tx.get("amount", "0"))`, conversion failures counting as 0. -/

/-- A raw internal transfer record as delivered by the detail provider. -/
structure RawInternalTx where
  fromA : Option String
  toA : Option String
  isFromContract : Bool
  isToContract : Bool
  amount : Option String
deriving DecidableEq

/-- `float(tx.get("amount", "0"))` with conversion failure defaulting to 0. -/
def internalAmount (t : RawInternalTx) : ℚ := (parseDec (t.amount.getD "0")).getD 0

/-- The filtering loop of `filter_important_internal_transactions`: drop a
zero amount; keep if the user address is an endpoint; keep if not both
endpoints are contracts; drop otherwise. -/
def filterImportantGo (userL : String) : List RawInternalTx → List RawInternalTx
  | [] => []
  | t :: rest =>
    if internalAmount t = 0 then filterImportantGo userL rest
    else if userL = lowerStr (t.fromA.getD "") ∨ userL = lowerStr (t.toA.getD "") then
      t :: filterImportantGo userL rest
    else if ¬(t.isFromContract ∧ t.isToContract) then t :: filterImportantGo userL rest
    else filterImportantGo userL rest

/-- `filter_important_internal_transactions` from `data_processor.py`. -/
def filter_important_internal_transactions
    (internal_txs : List RawInternalTx) (user_address : String) : List RawInternalTx :=
  filterImportantGo (lowerStr user_address) internal_txs

/-- The keep-predicate of the internal-transfer filter, as one proposition. -/
def KeepInternal (userL : String) (t : RawInternalTx) : Prop :=
  internalAmount t ≠ 0 ∧
    (userL = lowerStr (t.fromA.getD "") ∨ userL = lowerStr (t.toA.getD "") ∨
      ¬(t.isFromContract ∧ t.isToContract))

instance (userL : String) (t : RawInternalTx) : Decidable (KeepInternal userL t) := by
  unfold KeepInternal; infer_instance

/-! ## Raw transaction details and the detail cleaner (`process_and_clean_details`)

A raw detail record models the provider's JSON for one transaction.
`d['txhash']` and `d['chainIndex']` are read with mandatory indexing in
`core_logic.py` (a `KeyError` would abort the item), so they are total fields.
`fromDetails`/`toDetails` model `detail.get("fromDetails", [{}])`, a missing
key conflated with the default (read through `headD` below); the gas fields
model `detail.get(..., "")` / `detail.get("gasPrice", "0")` with a missing key
conflated with the default string.  The falsy-record skip
(`if not detail: continue`) has no counterpart since a record here is never
"empty". -/

/-- A raw token transfer (`tokenTransferDetails` entry). -/
structure RawTokenTx where
  fromA : Option String
  toA : Option String
  amount : Option String
  symbol : Option String
deriving DecidableEq

/-- One entry of `fromDetails`/`toDetails`. -/
structure EndpointRaw where
  address : Option String
  isContract : Option Bool
deriving DecidableEq

/-- A raw transaction detail record as returned by the detail provider. -/
structure RawDetail where
  txhash : String
  chainIndex : String
  txStatus : Option String
  height : Option String
  txTime : Option String
  fromDetails : List EndpointRaw
  toDetails : List EndpointRaw
  gasPrice : PyVal
  gasLimit : PyVal
  gasUsed : PyVal
  amount : Option String
  symbol : Option String
  txFee : Option String
  nonce : Option String
  methodId : Option String
  l1OriginHash : Option String
  internalTransactionDetails : List RawInternalTx
  tokenTransferDetails : List RawTokenTx
deriving DecidableEq

/-- The structured top-level `from`/`to` object built by the cleaner. -/
structure EndpointObj where
  address : String
  isContract : Bool
deriving DecidableEq

/-- The cleaned transaction dict built by `process_and_clean_details` (the
`ai_analysis` key is added later by step 6 of `run_new_analysis`, modelled
here as an `Option` field starting at `none`). -/
structure CleanedTx where
  txhash : String
  txStatus : Option String
  height : Option String
  txTime : String
  chainIndex : String
  fromE : EndpointObj
  toE : EndpointObj
  amount : String
  symbol : String
  gasLimit : String
  gasUsed : String
  gasPrice : String
  txFee : String
  nonce : String
  methodId : String
  l1OriginHash : String
  isUserInitiated : Bool
  internalTransactions : List RawInternalTx
  tokenTransfers : List RawTokenTx
  ai_analysis : Option String
deriving DecidableEq

/-- The default endpoint (`{}` in `detail.get("fromDetails", [{}])[0]`). -/
def emptyEndpointRaw : EndpointRaw := { address := none, isContract := none }

/-- The per-record body of `process_and_clean_details`. -/
def cleanDetail (fmt : Nat → String) (user_address : String) (d : RawDetail) : CleanedTx :=
  let userL := lowerStr user_address
  let tx_initiator := lowerStr ((d.fromDetails.headD emptyEndpointRaw).address.getD "")
  let is_user_initiated := tx_initiator == userL
  let from_detail := d.fromDetails.headD emptyEndpointRaw
  let to_detail := d.toDetails.headD emptyEndpointRaw
  let gas_price_wei := safe_decimal d.gasPrice
  { txhash := d.txhash
    txStatus := d.txStatus
    height := d.height
    txTime := formatTxTime fmt d.txTime
    chainIndex := d.chainIndex
    fromE := { address := from_detail.address.getD "", isContract := from_detail.isContract.getD false }
    toE := { address := to_detail.address.getD "", isContract := to_detail.isContract.getD false }
    amount := d.amount.getD ""
    symbol := d.symbol.getD ""
    gasLimit := compute_gas_cost d.gasLimit gas_price_wei
    gasUsed := compute_gas_cost d.gasUsed gas_price_wei
    gasPrice := format_decimal (if gas_price_wei ≠ 0 then gas_price_wei / WEI_PER_GWEI else 0) ""
    txFee := d.txFee.getD ""
    nonce := d.nonce.getD ""
    methodId := d.methodId.getD ""
    l1OriginHash := d.l1OriginHash.getD ""
    isUserInitiated := is_user_initiated
    internalTransactions :=
      filter_important_internal_transactions d.internalTransactionDetails user_address
    tokenTransfers :=
      if is_user_initiated then d.tokenTransferDetails
      else d.tokenTransferDetails.filter (fun t => lowerStr (t.toA.getD "") == userL)
    ai_analysis := none }

/-- `process_and_clean_details` from `data_processor.py`. -/
def process_and_clean_details (fmt : Nat → String)
    (raw_details_list : List RawDetail) (user_address : String) : List CleanedTx :=
  raw_details_list.map (cleanDetail fmt user_address)

/-! ## Address labels and enrichment (`core_logic.py` steps 5 and 5.5) -/

/-- A label payload from the Arkham provider (`{name?, type?, tags}`). -/
structure AddressLabel where
  name : Option String
  typ : Option String
  tags : List String
deriving DecidableEq

/-- The label map `arkham_data`, keyed by lower-cased address. -/
abbrev LabelMap := List (String × AddressLabel)

/-- Python dict lookup `m[k]` / `k in m` on a label map. -/
def lookupLabel (m : LabelMap) (k : String) : Option AddressLabel :=
  (m.find? (fun p => p.1 == k)).map (fun p => p.2)

/-- An address field as stored in a transaction dict: either a bare string or
a structured object `{"address": ..., "isContract"?, "addressInfo"?}`. -/
inductive EPField where
  | strv (s : String)
  | obj (address : String) (isContract : Option Bool) (addressInfo : Option AddressLabel)
deriving DecidableEq

/-- `get_address_from_field` from `core_logic.py`. -/
def get_address_from_field : Option EPField → Option String
  | some (.strv s) => some s
  | some (.obj a _ _) => some a
  | none => none

/-- `enrich_address_field` from `core_logic.py`: if the field's address is
non-empty and has a label in the lower-case-keyed map, convert a bare string
to an object and attach the label as `addressInfo` unless one is already
attached; otherwise leave the field unchanged. -/
def enrich_address_field (arkham : LabelMap) (field : Option EPField) : Option EPField :=
  match field with
  | none => none
  | some f =>
    match get_address_from_field (some f) with
    | none => some f
    | some a =>
      if a ≠ "" ∧ (lookupLabel arkham (lowerStr a)).isSome then
        match f with
        | .strv s => some (.obj s none (lookupLabel arkham (lowerStr s)))
        | .obj ad ic none => some (.obj ad ic (lookupLabel arkham (lowerStr ad)))
        | .obj ad ic (some l) => some (.obj ad ic (some l))
      else some f

/-- The value `enrich_address_field` stores back (it never removes the field). -/
def enrich1 (arkham : LabelMap) (f : EPField) : EPField :=
  match get_address_from_field (some f) with
  | none => f
  | some a =>
    if a ≠ "" ∧ (lookupLabel arkham (lowerStr a)).isSome then
      match f with
      | .strv s => .obj s none (lookupLabel arkham (lowerStr s))
      | .obj ad ic none => .obj ad ic (lookupLabel arkham (lowerStr ad))
      | .obj ad ic (some l) => .obj ad ic (some l)
    else f

/-- A transfer entry after the enrichment pass may carry endpoints in either
representation; the remaining keys of the original dict ride along. -/
structure EnrichedTransfer where
  fromF : Option EPField
  toF : Option EPField
  isFromContract : Option Bool
  isToContract : Option Bool
  amount : Option String
  symbol : Option String
deriving DecidableEq

/-- An internal-transfer dict viewed through the enrichment pass (endpoints
start as bare strings). -/
def wrapInternal (t : RawInternalTx) : EnrichedTransfer :=
  { fromF := t.fromA.map .strv, toF := t.toA.map .strv,
    isFromContract := some t.isFromContract, isToContract := some t.isToContract,
    amount := t.amount, symbol := none }

/-- A token-transfer dict viewed through the enrichment pass. -/
def wrapToken (t : RawTokenTx) : EnrichedTransfer :=
  { fromF := t.fromA.map .strv, toF := t.toA.map .strv,
    isFromContract := none, isToContract := none,
    amount := t.amount, symbol := t.symbol }

/-- Enrich both endpoints of one transfer dict. -/
def enrichTransfer (arkham : LabelMap) (t : EnrichedTransfer) : EnrichedTransfer :=
  { t with fromF := enrich_address_field arkham t.fromF,
           toF := enrich_address_field arkham t.toF }

/-- The top-level `from`/`to` object as seen by the enrichment pass. -/
def toEPField (e : EndpointObj) : EPField := .obj e.address (some e.isContract) none

/-- A transaction dict after the enrichment pass (all keys of the cleaned
dict, with every endpoint possibly enriched). -/
structure EnrichedTx where
  txhash : String
  txStatus : Option String
  height : Option String
  txTime : String
  chainIndex : String
  fromE : EPField
  toE : EPField
  amount : String
  symbol : String
  gasLimit : String
  gasUsed : String
  gasPrice : String
  txFee : String
  nonce : String
  methodId : String
  l1OriginHash : String
  isUserInitiated : Bool
  internalTransactions : List EnrichedTransfer
  tokenTransfers : List EnrichedTransfer
  ai_analysis : Option String
deriving DecidableEq

/-- Step 5.5 of `run_new_analysis`: enrich the top-level `from`/`to`, every
internal transfer and every token transfer of one transaction. -/
def enrichTx (arkham : LabelMap) (tx : CleanedTx) : EnrichedTx :=
  { txhash := tx.txhash, txStatus := tx.txStatus, height := tx.height, txTime := tx.txTime,
    chainIndex := tx.chainIndex,
    fromE := (enrich_address_field arkham (some (toEPField tx.fromE))).getD (toEPField tx.fromE),
    toE := (enrich_address_field arkham (some (toEPField tx.toE))).getD (toEPField tx.toE),
    amount := tx.amount, symbol := tx.symbol, gasLimit := tx.gasLimit, gasUsed := tx.gasUsed,
    gasPrice := tx.gasPrice, txFee := tx.txFee, nonce := tx.nonce, methodId := tx.methodId,
    l1OriginHash := tx.l1OriginHash, isUserInitiated := tx.isUserInitiated,
    internalTransactions :=
      tx.internalTransactions.map (fun t => enrichTransfer arkham (wrapInternal t)),
    tokenTransfers := tx.tokenTransfers.map (fun t => enrichTransfer arkham (wrapToken t)),
    ai_analysis := tx.ai_analysis }

/-- All endpoint occurrences of a cleaned transaction, as the enrichment pass
sees them (top-level `from`/`to`, internal-transfer endpoints, token-transfer
endpoints). -/
def occurrencesPre (tx : CleanedTx) : List (Option EPField) :=
  [some (toEPField tx.fromE), some (toEPField tx.toE)]
    ++ tx.internalTransactions.map (fun t => (wrapInternal t).fromF)
    ++ tx.internalTransactions.map (fun t => (wrapInternal t).toF)
    ++ tx.tokenTransfers.map (fun t => (wrapToken t).fromF)
    ++ tx.tokenTransfers.map (fun t => (wrapToken t).toF)

/-- All endpoint occurrences of an enriched transaction. -/
def occurrencesPost (tx : EnrichedTx) : List (Option EPField) :=
  [some tx.fromE, some tx.toE]
    ++ tx.internalTransactions.map (fun t => t.fromF)
    ++ tx.internalTransactions.map (fun t => t.toF)
    ++ tx.tokenTransfers.map (fun t => t.fromF)
    ++ tx.tokenTransfers.map (fun t => t.toF)

/-- The address carried by an endpoint field. -/
def addrOf : EPField → String
  | .strv s => s
  | .obj a _ _ => a

/-- The contract flag carried by an endpoint field, if any. -/
def icOf : EPField → Option Bool
  | .strv _ => none
  | .obj _ ic _ => ic

/-- The attached label of an endpoint field, if any. -/
def infoOf : EPField → Option AddressLabel
  | .strv _ => none
  | .obj _ _ i => i

/-! ## The single-transaction AI analysis call (`ai_client.py`) -/

/-- A decoded Python JSON value (`json.loads` output). -/
inductive PyJson where
  | str (s : String)
  | num (q : ℚ)
  | bool (b : Bool)
  | null
  | arr (xs : List PyJson)
  | obj (fields : List (String × PyJson))

/-- Whether a decoded value is a dict with an `analysis` key. -/
def hasAnalysisField : PyJson → Bool
  | .obj fields => fields.any (fun p => p.1 == "analysis")
  | _ => false

/-- `analyze_transaction` from `ai_client.py`.  The chat-completions call is
modelled by its outcome `apiCall` (exception message or response content) and
`json.loads` by the parse-outcome function `decode` (`none` models
`JSONDecodeError`).  The function is total: every branch returns a value. -/
def analyze_transaction (decode : String → Option PyJson)
    (apiCall : Except String String) : PyJson :=
  match apiCall with
  | .error e => .obj [("analysis", .str ("AI analysis failed: " ++ e))]
  | .ok content =>
    match decode content with
    | some parsed => parsed
    | none =>
      .obj [("analysis", .str ("AI返回了无效的JSON格式。原始响应: " ++ content.take 200))]

/-- A `json.loads` model that decodes the literal `"{}"` to the empty dict
(and rejects everything else). -/
def decodeEmptyObj : String → Option PyJson :=
  fun s => if s = "{}" then some (.obj []) else none

/-! ## The cache store (`db_manager.py`)

The `transactions` table is an association list of rows in table order;
`txHash` is the primary key.  `INSERT OR REPLACE` deletes a conflicting row
and appends the replacement (SQLite assigns it a fresh rowid), and the insert
in `add_transaction_detail` names no `ai_analysis` column, so the new row's
analysis is NULL.  A `SELECT ... WHERE x IN (...)` without `ORDER BY` is
modelled as returning the matching rows in table order. -/

/-- One row of the `transactions` table. -/
structure DbRow where
  txHash : String
  chainIndex : String
  queriedAddress : String
  detail : RawDetail
  ai_analysis : Option String
deriving DecidableEq

/-- The `transactions` table. -/
abbrev TxDb := List DbRow

/-- `add_transaction_detail` from `db_manager.py` (`INSERT OR REPLACE`). -/
def add_transaction_detail (db : TxDb) (txHash chainIndex queriedAddress : String)
    (detail_data : RawDetail) : TxDb :=
  db.filter (fun r => r.txHash ≠ txHash) ++
    [{ txHash := txHash, chainIndex := chainIndex, queriedAddress := queriedAddress,
       detail := detail_data, ai_analysis := none }]

/-- `get_transaction_details_by_hashes` from `db_manager.py` (the result dict,
as rows in table order; a `None` in the query list matches no TEXT key). -/
def get_transaction_details_by_hashes (db : TxDb) (txHashes : List (Option String)) :
    List DbRow :=
  if txHashes = [] then [] else db.filter (fun r => some r.txHash ∈ txHashes)

/-- `update_ai_analysis` from `db_manager.py`: an `UPDATE ... WHERE txHash = ?`
touches only an existing row and inserts nothing. -/
def update_ai_analysis (db : TxDb) (txHash : String) (analysis : String) : TxDb :=
  db.map (fun r => if r.txHash = txHash then { r with ai_analysis := some analysis } else r)

/-- One `INSERT OR REPLACE` into the `labels` table. -/
def upsertLabel (db : LabelMap) (k : String) (v : AddressLabel) : LabelMap :=
  db.filter (fun p => p.1 ≠ k) ++ [(k, v)]

/-- `add_labels` from `db_manager.py`: lower-cases every address and upserts
the pairs in order (`executemany` of `INSERT OR REPLACE`). -/
def add_labels (db : LabelMap) (label_data : List (String × AddressLabel)) : LabelMap :=
  if label_data = [] then db
  else label_data.foldl (fun acc kv => upsertLabel acc (lowerStr kv.1) kv.2) db

/-- `get_labels_by_addresses` from `db_manager.py`. -/
def get_labels_by_addresses (db : LabelMap) (addresses : List String) :
    List (String × AddressLabel) :=
  if addresses = [] then [] else db.filter (fun p => p.1 ∈ addresses.map lowerStr)

/-- Row lookup by primary key. -/
def findRow (db : TxDb) (h : String) : Option DbRow := db.find? (fun r => r.txHash == h)

/-- The `ai_analysis` column of the row with the given hash, if any. -/
def dbAnalysis (db : TxDb) (h : String) : Option String :=
  (findRow db h).bind (fun r => r.ai_analysis)

/-! ## The analysis dispatcher (`run_new_analysis` step 6)

`processed_data_map` is an insertion-ordered dict from hash to transaction
dict; the worker pool's `as_completed` iteration is modelled by folding the
per-future body over the completed futures, whose order is an arbitrary
permutation of the submission order.  The body attaches
`ai_result.get('analysis', 'Analysis not available.')` and persists it via
`update_ai_analysis` on success; when `future.result()` raised it attaches
the `Failed to analyze:` placeholder and persists nothing. -/

/-- The insertion-ordered `processed_data_map` after enrichment. -/
abbrev TxMap := List (String × EnrichedTx)

/-- Write an `ai_analysis` value into the map entry with the given key. -/
def setAnalysis (m : TxMap) (h : String) (s : String) : TxMap :=
  m.map (fun p => if p.1 = h then (p.1, { p.2 with ai_analysis := some s }) else p)

/-- The analysis text attached for one completed future. -/
def outcomeText : Except String (Option String) → String
  | .ok o => o.getD "Analysis not available."
  | .error e => "Failed to analyze: " ++ e

/-- Whether `future.result()` raised. -/
def isErr : Except String (Option String) → Bool
  | .error _ => true
  | .ok _ => false

/-- The body of the `as_completed` loop for one future. -/
def dispatchStep (analyze : EnrichedTx → Except String (Option String))
    (st : TxMap × TxDb) (tx : EnrichedTx) : TxMap × TxDb :=
  match analyze tx with
  | .ok o =>
    (setAnalysis st.1 tx.txhash (o.getD "Analysis not available."),
     update_ai_analysis st.2 tx.txhash (o.getD "Analysis not available."))
  | .error e => (setAnalysis st.1 tx.txhash ("Failed to analyze: " ++ e), st.2)

/-- The whole `as_completed` loop over one completion order. -/
def runDispatch (analyze : EnrichedTx → Except String (Option String))
    (completed : List EnrichedTx) (m : TxMap) (db : TxDb) : TxMap × TxDb :=
  completed.foldl (dispatchStep analyze) (m, db)

/-- The body of the `as_completed` loop with the `update_ai_analysis` write
allowed to raise: `writeFail h = some e` means the write for hash `h` raises
with message `e`.  The source first attaches the analysis text to the map
entry and then writes the cache; a raising write is rolled back and caught by
the same `except` as a failing future, which overwrites the just-attached
text with the error placeholder, so the net step on a write failure is the
placeholder in the map and an unchanged cache. -/
def dispatchStepF (writeFail : String → Option String)
    (analyze : EnrichedTx → Except String (Option String))
    (st : TxMap × TxDb) (tx : EnrichedTx) : TxMap × TxDb :=
  match analyze tx with
  | .ok o =>
    match writeFail tx.txhash with
    | none =>
      (setAnalysis st.1 tx.txhash (o.getD "Analysis not available."),
       update_ai_analysis st.2 tx.txhash (o.getD "Analysis not available."))
    | some e => (setAnalysis st.1 tx.txhash ("Failed to analyze: " ++ e), st.2)
  | .error e => (setAnalysis st.1 tx.txhash ("Failed to analyze: " ++ e), st.2)

/-- The whole `as_completed` loop with fallible analysis-cache writes. -/
def runDispatchF (writeFail : String → Option String)
    (analyze : EnrichedTx → Except String (Option String))
    (completed : List EnrichedTx) (m : TxMap) (db : TxDb) : TxMap × TxDb :=
  completed.foldl (dispatchStepF writeFail analyze) (m, db)

/-- Python dict lookup on the transaction map. -/
def mapAnalysis (m : TxMap) (h : String) : Option (Option String) :=
  (m.find? (fun p => p.1 == h)).map (fun p => p.2.ai_analysis)

/-- First-occurrence dedup of an arbitrary list (`seen` accumulates the
values already emitted). -/
def dedupFirstGo {α : Type} [DecidableEq α] (seen : List α) : List α → List α
  | [] => []
  | x :: rest =>
    if x ∈ seen then dedupFirstGo seen rest else x :: dedupFirstGo (x :: seen) rest

/-- First-occurrence dedup of an arbitrary list. -/
def dedupFirst {α : Type} [DecidableEq α] (l : List α) : List α := dedupFirstGo [] l

/-- One Python dict assignment `m[k] = v`: an existing key keeps its position
and gets the new value, a fresh key is appended. -/
def dictInsert {β : Type} (m : List (String × β)) (k : String) (v : β) :
    List (String × β) :=
  if k ∈ m.map (fun p => p.1) then m.map (fun p => if p.1 = k then (k, v) else p)
  else m ++ [(k, v)]

/-- Python dict comprehension `{p.1: p.2 for p in l}`: a key keeps the
position of its first insertion, its value is the last one written. -/
def buildMap {β : Type} (l : List (String × β)) : List (String × β) :=
  l.foldl (fun m p => dictInsert m p.1 p.2) []

/-! ## `run_new_analysis` (`core_logic.py`)

The run is a function of a `World`: the summary batches, the two cache
databases, and the external collaborators (detail provider, Arkham label
provider, per-transaction analysis outcome, timestamp formatting), plus
failure injection for the three cache-write sites: whether the
`add_transaction_detail` write of a record raises, which
`update_ai_analysis` writes raise (and with what message), and whether the
`add_labels` write raises.  The `sched` argument reorders the submitted
analysis tasks into their completion order.  The result is `none` when the
run produces no report: the early returns of step 1, and the top-level
`except` catching an `add_labels` exception (which skips every later step of
the run).  The other two write sites sit inside local handlers, so their
failures never make the result `none`. -/

/-- The environment of one pipeline run. -/
structure World where
  summary : List SummaryChunk
  fmt : Nat → String
  txDb : TxDb
  labelDb : LabelMap
  provider : TxInfo → List RawDetail
  arkhamFetch : List String → List (String × AddressLabel)
  detailWriteFail : RawDetail → Bool
  analysisWriteFail : String → Option String
  labelWriteOk : Bool
  analyze : EnrichedTx → Except String (Option String)

/-- Step 1: extraction plus dedup. -/
def dedupedOf (w : World) : List TxInfo :=
  dedupByHash (extract_tx_info_from_summary w.fmt w.summary)

/-- Step 2: `cached_data`, as rows. -/
def cachedRowsOf (w : World) : List DbRow :=
  get_transaction_details_by_hashes w.txDb ((dedupedOf w).map (fun t => t.txHash))

/-- `tx['txHash'] in cached_data` (`None` is never a key of the dict). -/
def hashInKeys (cachedKeys : List String) : Option String → Bool
  | some h => cachedKeys.contains h
  | none => false

/-- `[tx for tx in tx_info_list if tx['txHash'] not in cached_data]`. -/
def tx_info_to_fetch_online (tx_info_list : List TxInfo) (cachedKeys : List String) :
    List TxInfo :=
  tx_info_list.filter (fun t => !hashInKeys cachedKeys t.txHash)

/-- The keys of `cached_data` for a query list. -/
def cachedKeysOf (db : TxDb) (txs : List TxInfo) : List String :=
  (get_transaction_details_by_hashes db (txs.map (fun t => t.txHash))).map (fun r => r.txHash)

/-- The identifiers the run fetches online. -/
def toFetchOf (w : World) : List TxInfo :=
  tx_info_to_fetch_online (dedupedOf w) ((cachedRowsOf w).map (fun r => r.txHash))

/-- The per-item `add_transaction_detail` loop of the fetch phase.  A raising
write is caught by the surrounding per-item handler, which skips the
remaining writes of that item only; the loop over items goes on. -/
def addDetails (fail : RawDetail → Bool) (address : String) : TxDb → List RawDetail → TxDb
  | db, [] => db
  | db, d :: rest =>
    if fail d then db
    else addDetails fail address (add_transaction_detail db d.txhash d.chainIndex address d) rest

/-- Step 3: the sequential fetch loop, returning the fetched details in
arrival order together with the detail cache after the per-record
`add_transaction_detail` writes.  `all_details_raw.extend(detail)` precedes
the write loop in the source, so a failing write never loses the fetched
records; the 1.1 s inter-request sleep has no observable effect. -/
def fetchPhase (w : World) (address : String) : List RawDetail × TxDb :=
  (toFetchOf w).foldl
    (fun acc info =>
      let ds := w.provider info
      (acc.1 ++ ds, addDetails w.detailWriteFail address acc.2 ds))
    ([], w.txDb)

/-- `all_details_raw`: cached details first, then the fetched ones. -/
def allRawOf (w : World) (address : String) : List RawDetail :=
  (cachedRowsOf w).map (fun r => r.detail) ++ (fetchPhase w address).1

/-- Step 4: the cleaned details. -/
def processedOf (w : World) (address : String) : List CleanedTx :=
  process_and_clean_details w.fmt (allRawOf w address) address

/-- `processed_data_map = {tx['txhash']: tx for tx in processed_data}`. -/
def pmapOf (w : World) (address : String) : List (String × CleanedTx) :=
  buildMap ((processedOf w address).map (fun t => (t.txhash, t)))

/-- The endpoint addresses of one cleaned transaction, in traversal order. -/
def txAddresses (tx : CleanedTx) : List (Option String) :=
  [some tx.fromE.address, some tx.toE.address]
    ++ tx.internalTransactions.map (fun t => t.fromA)
    ++ tx.internalTransactions.map (fun t => t.toA)
    ++ tx.tokenTransfers.map (fun t => t.fromA)
    ++ tx.tokenTransfers.map (fun t => t.toA)

/-- Step 5's address collection.  The source accumulates a Python `set` and
takes `list(set)` (iteration order unspecified); the model fixes first-seen
order, with `None` and `""` discarded as in the source. -/
def collectAddresses (txs : List CleanedTx) : List String :=
  ((dedupFirst ((txs.map txAddresses).flatten)).filterMap (fun o => o)).filter
    (fun a => a ≠ "")

/-- `all_addresses_list`. -/
def addrsOf (w : World) (address : String) : List String :=
  collectAddresses (processedOf w address)

/-- `cached_labels`. -/
def cachedLabelsOf (w : World) (address : String) : List (String × AddressLabel) :=
  get_labels_by_addresses w.labelDb (addrsOf w address)

/-- `[addr for addr in all_addresses_list if addr.lower() not in cached_labels]`. -/
def labelsToFetchOf (w : World) (address : String) : List String :=
  (addrsOf w address).filter
    (fun a => lowerStr a ∉ (cachedLabelsOf w address).map (fun p => p.1))

/-- `newly_fetched_labels` (fetched only when something is missing). -/
def newLabelsOf (w : World) (address : String) : List (String × AddressLabel) :=
  if labelsToFetchOf w address = [] then [] else w.arkhamFetch (labelsToFetchOf w address)

/-- `arkham_data = cached_labels; arkham_data.update({k.lower(): v, ...})`. -/
def mergeLabels (cached newly : List (String × AddressLabel)) : LabelMap :=
  cached.filter (fun p => p.1 ∉ newly.map (fun q => lowerStr q.1))
    ++ newly.map (fun q => (lowerStr q.1, q.2))

/-- The resolved label map of the run. -/
def arkhamOf (w : World) (address : String) : LabelMap :=
  mergeLabels (cachedLabelsOf w address) (newLabelsOf w address)

/-- Step 5.5 applied to the map's values. -/
def emapOf (w : World) (address : String) : TxMap :=
  (pmapOf w address).map (fun p => (p.1, enrichTx (arkhamOf w address) p.2))

/-- `cached_data[tx_hash].get('analysis')` truthiness check of step 6. -/
def cachedAnalysisFor (cachedRows : List DbRow) (h : String) : Option String :=
  match findRow cachedRows h with
  | some r =>
    match r.ai_analysis with
    | some s => if s = "" then none else some s
    | none => none
  | none => none

/-- The map after attaching cached analyses. -/
def withCachedOf (w : World) (address : String) : TxMap :=
  (emapOf w address).map (fun p =>
    match cachedAnalysisFor (cachedRowsOf w) p.1 with
    | some s => (p.1, { p.2 with ai_analysis := some s })
    | none => p)

/-- `txs_to_analyze`, in map order. -/
def toAnalyzeOf (w : World) (address : String) : List EnrichedTx :=
  ((emapOf w address).filter (fun p => (cachedAnalysisFor (cachedRowsOf w) p.1).isNone)).map
    (fun p => p.2)

/-- The observable outcome of one run. -/
structure RunResult where
  deduped : List TxInfo
  fetchedInfos : List TxInfo
  cachedDetails : List RawDetail
  fetchedDetails : List RawDetail
  finalTxs : List EnrichedTx
  corpus : List String
  txDb : TxDb
  labelDb : LabelMap

/-- The non-empty-analysis selection of step 8 (`if tx.get('ai_analysis')`). -/
def analysisText (o : Option String) : Option String :=
  match o with
  | some s => if s = "" then none else some s
  | none => none

/-- `run_new_analysis` from `core_logic.py` (steps 1-6 and the corpus of
step 8; the report/chat steps consume only `corpus`). -/
def run_new_analysis (w : World) (sched : List EnrichedTx → List EnrichedTx)
    (address : String) : Option RunResult :=
  if w.summary = [] then none
  else if extract_tx_info_from_summary w.fmt w.summary = [] then none
  else if newLabelsOf w address ≠ [] ∧ w.labelWriteOk = false then none
  else
    let finalState := runDispatchF w.analysisWriteFail w.analyze (sched (toAnalyzeOf w address))
      (withCachedOf w address) (fetchPhase w address).2
    some
      { deduped := dedupedOf w
        fetchedInfos := toFetchOf w
        cachedDetails := (cachedRowsOf w).map (fun r => r.detail)
        fetchedDetails := (fetchPhase w address).1
        finalTxs := finalState.1.map (fun p => p.2)
        corpus := finalState.1.filterMap (fun p => analysisText p.2.ai_analysis)
        txDb := finalState.2
        labelDb := if newLabelsOf w address = [] then w.labelDb
                   else add_labels w.labelDb (newLabelsOf w address) }

/-! ### Concrete inputs used by witnesses and counterexamples -/

/-- A summary batch containing hash `0xA` twice and `0xB` once. -/
def wRawSummary : List SummaryChunk :=
  [{ transactions :=
      [{ chainIndex := some "1", txHash := some "0xA", txTime := some "1700000000000" },
       { chainIndex := some "1", txHash := some "0xA", txTime := some "1700000000000" },
       { chainIndex := some "1", txHash := some "0xB", txTime := some "1700000001000" }] }]

/-- A non-zero internal transfer between two contract addresses. -/
def wContractTransfer : RawInternalTx :=
  { fromA := some "0xc1", toA := some "0xc2", isFromContract := true, isToContract := true,
    amount := some "1" }

/-- A token transfer whose destination is the queried address `0xME`. -/
def wTokKeep : RawTokenTx :=
  { fromA := some "0xpool", toA := some "0xMe", amount := some "5", symbol := some "USDC" }

/-- A token transfer to a third party. -/
def wTokDrop : RawTokenTx :=
  { fromA := some "0xpool", toA := some "0xYou", amount := some "7", symbol := some "USDC" }

/-- A raw detail initiated by `0xOther` carrying two token transfers. -/
def wDetailC5 : RawDetail :=
  { txhash := "0xt1", chainIndex := "1", txStatus := some "success", height := none,
    txTime := none,
    fromDetails := [{ address := some "0xOther", isContract := some false }],
    toDetails := [], gasPrice := .vstr "", gasLimit := .vstr "", gasUsed := .vstr "",
    amount := none, symbol := none, txFee := none, nonce := none, methodId := none,
    l1OriginHash := none, internalTransactionDetails := [],
    tokenTransferDetails := [wTokKeep, wTokDrop] }

/-- A label payload. -/
def wLabel : AddressLabel := { name := some "Binance", typ := some "cex", tags := [] }

/-- A label map holding `wLabel` under the lower-cased address `0xabcd`. -/
def wLabelMap : LabelMap := [("0xabcd", wLabel)]

/-- An arbitrary cleaned transaction. -/
def wCleanedDummy : CleanedTx := cleanDetail (fun _ => "") "0xu" wDetailC5

/-- A minimal raw detail with hash `0xa`. -/
def wDetailA : RawDetail :=
  { txhash := "0xa", chainIndex := "1", txStatus := some "success", height := none,
    txTime := none, fromDetails := [], toDetails := [], gasPrice := .vstr "",
    gasLimit := .vstr "", gasUsed := .vstr "", amount := none, symbol := none,
    txFee := none, nonce := none, methodId := none, l1OriginHash := none,
    internalTransactionDetails := [], tokenTransferDetails := [] }

/-- A minimal raw detail with hash `0xb`. -/
def wDetailB : RawDetail := { wDetailA with txhash := "0xb" }

/-- A summary batch yielding identifier order `[0xa, 0xb]`. -/
def wSummaryAB : List SummaryChunk :=
  [{ transactions :=
      [{ chainIndex := some "1", txHash := some "0xa", txTime := none },
       { chainIndex := some "1", txHash := some "0xb", txTime := none }] }]

/-- A world where `0xb` is cached and `0xa` must be fetched, so the processed
order is `[0xb, 0xa]` while the identifier order is `[0xa, 0xb]`. -/
def wC3 : World :=
  { summary := wSummaryAB
    fmt := fun _ => ""
    txDb := [{ txHash := "0xb", chainIndex := "1", queriedAddress := "0xu",
               detail := wDetailB, ai_analysis := none }]
    labelDb := []
    provider := fun info => if info.txHash = some "0xa" then [wDetailA] else []
    arkhamFetch := fun _ => []
    detailWriteFail := fun _ => false
    analysisWriteFail := fun _ => none
    labelWriteOk := true
    analyze := fun t => .ok (some ("an-" ++ t.txhash)) }

/-- The world `wC3` with every detail write and every analysis update
raising. -/
def wAllWriteFail : World :=
  { wC3 with
    detailWriteFail := fun _ => true
    analysisWriteFail := fun _ => some "disk I/O error" }

/-- A raw detail whose sender address is `0xS` (so the run collects a fresh
address to label). -/
def wDetailS : RawDetail :=
  { wDetailA with
    txhash := "0xs1"
    fromDetails := [{ address := some "0xS", isContract := some false }] }

/-- A world whose run reaches the `add_labels` write with fresh labels while
that write raises. -/
def wC8 : World :=
  { summary :=
      [{ transactions := [{ chainIndex := some "1", txHash := some "0xs1", txTime := none }] }]
    fmt := fun _ => ""
    txDb := []
    labelDb := []
    provider := fun _ => [wDetailS]
    arkhamFetch := fun _ => [("0xS", wLabel)]
    detailWriteFail := fun _ => false
    analysisWriteFail := fun _ => none
    labelWriteOk := false
    analyze := fun t => .ok (some ("an-" ++ t.txhash)) }

/-- A simple enriched transaction with the given hash. -/
def mkSimpleEnriched (h : String) : EnrichedTx :=
  enrichTx [] (cleanDetail (fun _ => "") "0xu" { wDetailA with txhash := h })

/-- Dispatcher task for `0xa`. -/
def wTaskA : EnrichedTx := mkSimpleEnriched "0xa"

/-- Dispatcher task for `0xb`. -/
def wTaskB : EnrichedTx := mkSimpleEnriched "0xb"

/-- Two submitted analysis tasks. -/
def wTasks : List EnrichedTx := [wTaskA, wTaskB]

/-- The transaction map holding both tasks. -/
def wTaskMap : TxMap := [("0xa", wTaskA), ("0xb", wTaskB)]

/-- Detail-cache rows for both tasks, with no analysis yet. -/
def wTaskDb : TxDb :=
  [{ txHash := "0xa", chainIndex := "1", queriedAddress := "0xu", detail := wDetailA,
     ai_analysis := none },
   { txHash := "0xb", chainIndex := "1", queriedAddress := "0xu", detail := wDetailB,
     ai_analysis := none }]

/-- An analysis collaborator whose task for `0xb` throws. -/
def wAnalyzeOneFail : EnrichedTx → Except String (Option String) :=
  fun t => if t.txhash = "0xb" then .error "boom" else .ok (some "good")

/-- The identifier record for `0xa`. -/
def wInfoA : TxInfo := { chainIndex := some "1", txHash := some "0xa", timestamp := "" }

/-- The identifier record for `0xb`. -/
def wInfoB : TxInfo := { chainIndex := some "1", txHash := some "0xb", timestamp := "" }

/-! ## Theorems -/

/-- Unfolding lemma: `dedupGo` with a seen-set equals the spec dedup of the
input restricted to unseen hashes. -/
theorem dedupGo_eq_spec (l : List TxInfo) :
    ∀ seen, dedupGo seen l = specFirstOccurrences (l.filter (fun y => y.txHash ∉ seen)) := by
  induction l with
  | nil => intro seen; simp [dedupGo, specFirstOccurrences]
  | cons x rest ih =>
    intro seen
    by_cases hx : x.txHash ∈ seen
    · simp [dedupGo, hx, List.filter_cons, ih]
    · have hfilter : List.filter (fun y => y.txHash ∉ (x.txHash :: seen)) rest
          = List.filter (fun y => y.txHash ≠ x.txHash)
              (List.filter (fun y => y.txHash ∉ seen) rest) := by
        rw [List.filter_filter]
        apply List.filter_congr
        intro y _
        by_cases h1 : y.txHash = x.txHash <;> by_cases h2 : y.txHash ∈ seen <;>
          simp [h1, h2, List.mem_cons]
      simp [dedupGo, hx, List.filter_cons, ih, hfilter, specFirstOccurrences]

/-- `dedupByHash` refines the spec-side first-occurrence dedup. -/
theorem dedupByHash_eq_spec (l : List TxInfo) : dedupByHash l = specFirstOccurrences l := by
  have h := dedupGo_eq_spec l []
  simpa [dedupByHash] using h

/-- Hash membership is preserved by the spec dedup. -/
theorem mem_keys_specFirstOccurrences (l : List TxInfo) (h : Option String) :
    h ∈ (specFirstOccurrences l).map (·.txHash) ↔ h ∈ l.map (·.txHash) := by
  induction l using specFirstOccurrences.induct with
  | case1 => simp [specFirstOccurrences]
  | case2 tx rest ih =>
    simp only [specFirstOccurrences, List.map_cons, List.mem_cons, ih]
    constructor
    · rintro (rfl | hmem)
      · exact Or.inl rfl
      · rcases List.mem_map.mp hmem with ⟨y, hy, rfl⟩
        exact Or.inr (List.mem_map.mpr ⟨y, (List.mem_filter.mp hy).1, rfl⟩)
    · rintro (rfl | hmem)
      · exact Or.inl rfl
      · rcases List.mem_map.mp hmem with ⟨y, hy, rfl⟩
        by_cases heq : y.txHash = tx.txHash
        · exact Or.inl heq
        · refine Or.inr (List.mem_map.mpr ⟨y, List.mem_filter.mpr ⟨hy, ?_⟩, rfl⟩)
          simpa using heq

/-- The spec dedup has pairwise-distinct hashes. -/
theorem specFirstOccurrences_keys_nodup (l : List TxInfo) :
    ((specFirstOccurrences l).map (·.txHash)).Nodup := by
  induction l using specFirstOccurrences.induct with
  | case1 => simp [specFirstOccurrences]
  | case2 tx rest ih =>
    simp only [specFirstOccurrences, List.map_cons, List.nodup_cons]
    refine ⟨fun hmem => ?_, ih⟩
    rw [mem_keys_specFirstOccurrences] at hmem
    rcases List.mem_map.mp hmem with ⟨y, hy, hyx⟩
    have := (List.mem_filter.mp hy).2
    simp [hyx] at this

/-- A list with no duplicates counts each of its members exactly once. -/
theorem count_eq_one_of_nodup_mem {α : Type} [BEq α] [LawfulBEq α] {l : List α} {a : α}
    (hnd : l.Nodup) (ha : a ∈ l) : l.count a = 1 := by
  induction l with
  | nil => cases ha
  | cons x xs ih =>
    rcases List.mem_cons.mp ha with rfl | h
    · rw [List.count_cons_self, List.count_eq_zero.mpr (List.nodup_cons.mp hnd).1]
    · rw [List.count_cons_of_ne ?_, ih (List.nodup_cons.mp hnd).2 h]
      rintro rfl
      exact (List.nodup_cons.mp hnd).1 h

/-- C1: the identifier extraction plus dedup step yields a list equal to the
first-occurrence dedup of the extractor output (so each record sits at the
position of the first occurrence of its hash, in first-seen order across
batches, later duplicates dropped), its hashes are pairwise distinct, and
every extracted hash appears in it exactly once. -/
theorem extract_dedup_unique_first_occurrence (fmt : Nat → String) (raw : List SummaryChunk) :
    dedupByHash (extract_tx_info_from_summary fmt raw)
        = specFirstOccurrences (extract_tx_info_from_summary fmt raw) ∧
      ((dedupByHash (extract_tx_info_from_summary fmt raw)).map (·.txHash)).Nodup ∧
      ∀ h, h ∈ (extract_tx_info_from_summary fmt raw).map (·.txHash) →
        ((dedupByHash (extract_tx_info_from_summary fmt raw)).map (·.txHash)).count h = 1 := by
  refine ⟨dedupByHash_eq_spec _, ?_, ?_⟩
  · rw [dedupByHash_eq_spec]
    exact specFirstOccurrences_keys_nodup _
  · intro h hmem
    rw [dedupByHash_eq_spec]
    exact count_eq_one_of_nodup_mem (specFirstOccurrences_keys_nodup _)
      ((mem_keys_specFirstOccurrences _ _).mpr hmem)

/-- The internal-transfer filter loop keeps exactly the members satisfying the
keep-predicate. -/
theorem mem_filterImportantGo (userL : String) (l : List RawInternalTx) (t : RawInternalTx) :
    t ∈ filterImportantGo userL l ↔ t ∈ l ∧ KeepInternal userL t := by
  induction l with
  | nil => simp [filterImportantGo]
  | cons x rest ih =>
    simp only [filterImportantGo]
    by_cases h1 : internalAmount x = 0
    · rw [if_pos h1, ih]
      constructor
      · rintro ⟨hm, hk⟩; exact ⟨List.mem_cons_of_mem _ hm, hk⟩
      · rintro ⟨hm, hk⟩
        rcases List.mem_cons.mp hm with rfl | hm'
        · exact absurd h1 hk.1
        · exact ⟨hm', hk⟩
    · rw [if_neg h1]
      by_cases h2 : userL = lowerStr (x.fromA.getD "") ∨ userL = lowerStr (x.toA.getD "")
      · rw [if_pos h2]
        simp only [List.mem_cons, ih]
        constructor
        · rintro (rfl | ⟨hm, hk⟩)
          · exact ⟨Or.inl rfl, h1, Or.imp id Or.inl h2⟩
          · exact ⟨Or.inr hm, hk⟩
        · rintro ⟨rfl | hm, hk⟩
          · exact Or.inl rfl
          · exact Or.inr ⟨hm, hk⟩
      · rw [if_neg h2]
        by_cases h3 : ¬(x.isFromContract ∧ x.isToContract)
        · rw [if_pos h3]
          simp only [List.mem_cons, ih]
          constructor
          · rintro (rfl | ⟨hm, hk⟩)
            · exact ⟨Or.inl rfl, h1, Or.inr (Or.inr h3)⟩
            · exact ⟨Or.inr hm, hk⟩
          · rintro ⟨rfl | hm, hk⟩
            · exact Or.inl rfl
            · exact Or.inr ⟨hm, hk⟩
        · rw [if_neg h3, ih]
          constructor
          · rintro ⟨hm, hk⟩; exact ⟨List.mem_cons_of_mem _ hm, hk⟩
          · rintro ⟨hm, hk⟩
            rcases List.mem_cons.mp hm with rfl | hm'
            · rcases hk.2 with hu | hu | hc
              · exact absurd (Or.inl hu) h2
              · exact absurd (Or.inr hu) h2
              · exact absurd hc h3
            · exact ⟨hm', hk⟩

/-- C4: an internal transfer is kept by the internal-transfer filter iff its
parsed amount is non-zero AND (its from or to address equals the queried
address case-insensitively OR not both endpoints are contracts); in
particular a non-zero transfer between two contracts neither equal to the
queried address is dropped. -/
theorem internal_transfer_filter_kept_iff
    (internal_txs : List RawInternalTx) (user_address : String) (t : RawInternalTx) :
    t ∈ filter_important_internal_transactions internal_txs user_address ↔
      t ∈ internal_txs ∧ internalAmount t ≠ 0 ∧
        (lowerStr user_address = lowerStr (t.fromA.getD "") ∨
          lowerStr user_address = lowerStr (t.toA.getD "") ∨
          ¬(t.isFromContract ∧ t.isToContract)) := by
  exact mem_filterImportantGo _ _ _

/-- C10: `_safe_decimal` maps `None`, the empty string and every unparseable
string or other value to 0 (it is total by construction), and therefore
`_compute_gas_cost` returns the string `"0"` whenever the gas amount is
missing, zero or malformed, or the gas price is zero. -/
theorem safe_decimal_zero_and_gas_cost_zero :
    safe_decimal .vnone = 0 ∧
      safe_decimal (.vstr "") = 0 ∧
      (∀ s, parseDec s = none → safe_decimal (.vstr s) = 0) ∧
      (∀ r, parseDec r = none → safe_decimal (.vother r) = 0) ∧
      (∀ g p, safe_decimal g = 0 ∨ p = 0 → compute_gas_cost g p = "0") := by
  refine ⟨rfl, rfl, ?_, ?_, ?_⟩
  · intro s hs
    by_cases h : s = "" <;> simp [safe_decimal, h, hs]
  · intro r hr
    simp [safe_decimal, hr]
  · intro g p h
    have : safe_decimal g = 0 ∨ p = 0 := h
    simp only [compute_gas_cost]
    rw [if_pos this]

/-- Concrete instance for C10: the gas-amount string `"abc"` is unparseable,
so the gas cost is the string `"0"` even at a non-zero gas price. -/
theorem safe_decimal_zero_and_gas_cost_zero_witness :
    parseDec "abc" = none ∧ compute_gas_cost (.vstr "abc") 5 = "0" :=
  ⟨by decide, safe_decimal_zero_and_gas_cost_zero.2.2.2.2 (.vstr "abc") 5
    (Or.inl (safe_decimal_zero_and_gas_cost_zero.2.2.1 "abc" (by decide)))⟩

/-- Concrete instance for C1: a batch containing `0xA` twice and `0xB` once
dedups to `[0xA, 0xB]`, and `0xA` is counted exactly once. -/
theorem extract_dedup_unique_first_occurrence_witness :
    (some "0xA" : Option String)
        ∈ (extract_tx_info_from_summary (fun _ => "") wRawSummary).map (·.txHash) ∧
      ((dedupByHash (extract_tx_info_from_summary (fun _ => "") wRawSummary)).map
          (·.txHash)).count (some "0xA") = 1 :=
  ⟨by decide, (extract_dedup_unique_first_occurrence (fun _ => "") wRawSummary).2.2
    (some "0xA") (by decide)⟩

/-- Concrete instance for C4: a non-zero transfer between two contracts,
neither the queried address, is dropped. -/
theorem internal_transfer_filter_kept_iff_witness :
    wContractTransfer ∉ filter_important_internal_transactions [wContractTransfer] "0xUser" :=
  fun hmem => by
    have h := (internal_transfer_filter_kept_iff [wContractTransfer] "0xUser"
      wContractTransfer).mp hmem
    revert h
    decide

/-- `enrich_address_field` always stores a value back into an occupied field
(captured by the total function `enrich1`). -/
theorem enrich_address_field_some (arkham : LabelMap) (f : EPField) :
    enrich_address_field arkham (some f) = some (enrich1 arkham f) := by
  cases f with
  | strv s =>
    simp only [enrich_address_field, enrich1, get_address_from_field]
    split <;> rfl
  | obj a ic i =>
    cases i <;> simp only [enrich_address_field, enrich1, get_address_from_field] <;>
      split <;> rfl

/-- C5: the cleaner keeps all token transfers exactly when the transaction is
user-initiated (primary sender equals the queried address case-insensitively)
and otherwise keeps exactly those whose destination equals the queried address
case-insensitively. -/
theorem token_transfers_kept_by_initiator (fmt : Nat → String) (user_address : String)
    (d : RawDetail) :
    ((cleanDetail fmt user_address d).isUserInitiated
        = (lowerStr ((d.fromDetails.headD emptyEndpointRaw).address.getD "")
            == lowerStr user_address)) ∧
      ((cleanDetail fmt user_address d).isUserInitiated = true →
        (cleanDetail fmt user_address d).tokenTransfers = d.tokenTransferDetails) ∧
      ((cleanDetail fmt user_address d).isUserInitiated = false →
        (cleanDetail fmt user_address d).tokenTransfers
          = d.tokenTransferDetails.filter
              (fun t => lowerStr (t.toA.getD "") == lowerStr user_address)) := by
  have hif : (cleanDetail fmt user_address d).tokenTransfers
      = if (cleanDetail fmt user_address d).isUserInitiated then d.tokenTransferDetails
        else d.tokenTransferDetails.filter
          (fun t => lowerStr (t.toA.getD "") == lowerStr user_address) := rfl
  refine ⟨rfl, ?_, ?_⟩ <;> intro h <;> rw [hif, h] <;> simp

/-- Concrete instance for C5: a transaction initiated by `0xOther` keeps, for
queried address `0xME`, exactly the transfer destined to `0xMe`. -/
theorem token_transfers_kept_by_initiator_witness :
    (cleanDetail (fun _ => "") "0xME" wDetailC5).tokenTransfers = [wTokKeep] := by
  have h := (token_transfers_kept_by_initiator (fun _ => "") "0xME" wDetailC5).2.2 (by decide)
  rw [h]
  decide

/-- C6: the enrichment pass maps `enrich_address_field` over every endpoint
occurrence of a transaction (top-level `from`/`to`, internal transfers, token
transfers), and on any occurrence whose non-empty address has an entry in the
lower-case-keyed label map the stored field is a structured object carrying
the same address whose `addressInfo` is the already-attached label when one
exists (never overwritten) and the map's label otherwise. -/
theorem enrichment_covers_every_occurrence (arkham : LabelMap) (tx : CleanedTx) :
    occurrencesPost (enrichTx arkham tx)
        = (occurrencesPre tx).map (enrich_address_field arkham) ∧
      (∀ f : EPField, ∀ l : AddressLabel, addrOf f ≠ "" →
        lookupLabel arkham (lowerStr (addrOf f)) = some l →
        enrich_address_field arkham (some f)
          = some (.obj (addrOf f) (icOf f) (some ((infoOf f).getD l)))) := by
  constructor
  · simp [occurrencesPost, occurrencesPre, enrichTx, enrichTransfer, List.map_map,
      Function.comp_def, enrich_address_field_some]
  · intro f l hne hl
    cases f with
    | strv s =>
      simp only [addrOf] at hne hl
      simp [enrich_address_field, get_address_from_field, addrOf, icOf, infoOf, hne, hl]
    | obj a ic i =>
      simp only [addrOf] at hne hl
      cases i <;>
        simp [enrich_address_field, get_address_from_field, addrOf, icOf, infoOf, hne, hl]

/-- Concrete instance for C6: a bare-string occurrence of `0xAbCd` is
converted to a structured endpoint carrying the label stored under
`0xabcd`. -/
theorem enrichment_covers_every_occurrence_witness :
    enrich_address_field wLabelMap (some (.strv "0xAbCd"))
      = some (.obj "0xAbCd" none (some wLabel)) := by
  have h := (enrichment_covers_every_occurrence wLabelMap wCleanedDummy).2 (.strv "0xAbCd")
    wLabel (by decide) (by decide)
  simpa [addrOf, icOf, infoOf] using h

/-- C9 counterexample: when the API call succeeds and the AI returns the valid
JSON text `"{}"` (a dict without an `analysis` key), `analyze_transaction`
returns that dict unchanged, so the result carries no `analysis` field. -/
theorem analyze_result_lacks_analysis_field :
    hasAnalysisField (analyze_transaction decodeEmptyObj (.ok "{}")) = false := rfl

/-- C9 amended: `analyze_transaction` is total (it returns in every branch
instead of raising); on an API failure or a JSON-decode failure it returns a
dict whose `analysis` field embeds the error; on a successful decode it
returns the decoded value as-is, which need not contain an `analysis` field. -/
theorem analyze_transaction_total_amended (decode : String → Option PyJson)
    (apiCall : Except String String) :
    (∀ e, apiCall = .error e →
        analyze_transaction decode apiCall
          = .obj [("analysis", .str ("AI analysis failed: " ++ e))]) ∧
      (∀ s, apiCall = .ok s → decode s = none →
        analyze_transaction decode apiCall
          = .obj [("analysis", .str ("AI返回了无效的JSON格式。原始响应: " ++ s.take 200))]) ∧
      (∀ s j, apiCall = .ok s → decode s = some j →
        analyze_transaction decode apiCall = j) := by
  refine ⟨?_, ?_, ?_⟩
  · rintro e rfl; rfl
  · rintro s rfl hd; simp [analyze_transaction, hd]
  · rintro s j rfl hd; simp [analyze_transaction, hd]

/-- Concrete instance for C9 (amended): an API exception `boom` yields the
embedded error dict. -/
theorem analyze_transaction_total_amended_witness :
    analyze_transaction decodeEmptyObj (.error "boom")
      = .obj [("analysis", .str ("AI analysis failed: " ++ "boom"))] :=
  (analyze_transaction_total_amended decodeEmptyObj (.error "boom")).1 "boom" rfl

/-- C2: relative to the batch cache lookup, a hash present in the detail
cache result is never in the to-fetch list (and the detail provider is
invoked exactly on the to-fetch list), while an identifier is in the to-fetch
list exactly when its hash is absent from the cache result. -/
theorem cache_or_fetch_no_refetch (db : TxDb) (txs : List TxInfo) (t : TxInfo) (h : String) :
    (t ∈ tx_info_to_fetch_online txs (cachedKeysOf db txs) → h ∈ cachedKeysOf db txs →
        t.txHash ≠ some h) ∧
      (t ∈ txs → hashInKeys (cachedKeysOf db txs) t.txHash = false →
        t ∈ tx_info_to_fetch_online txs (cachedKeysOf db txs)) ∧
      (t ∈ tx_info_to_fetch_online txs (cachedKeysOf db txs) →
        t ∈ txs ∧ hashInKeys (cachedKeysOf db txs) t.txHash = false) := by
  refine ⟨?_, ?_, ?_⟩
  · intro hf hk heq
    have hmem := (List.mem_filter.mp hf).2
    rw [heq] at hmem
    simp [hashInKeys, hk] at hmem
  · intro ht hk
    exact List.mem_filter.mpr ⟨ht, by simp [hk]⟩
  · intro hf
    have hm := List.mem_filter.mp hf
    exact ⟨hm.1, by simpa using hm.2⟩

/-- Concrete instance for C2: with `0xb` cached, `0xa` is fetched and is not
the cached hash. -/
theorem cache_or_fetch_no_refetch_witness :
    wInfoA ∈ tx_info_to_fetch_online [wInfoA, wInfoB] (cachedKeysOf wC3.txDb [wInfoA, wInfoB]) ∧
      wInfoA.txHash ≠ some "0xb" :=
  ⟨(cache_or_fetch_no_refetch wC3.txDb [wInfoA, wInfoB] wInfoA "0xb").2.1 (by decide) (by decide),
   (cache_or_fetch_no_refetch wC3.txDb [wInfoA, wInfoB] wInfoA "0xb").1
     ((cache_or_fetch_no_refetch wC3.txDb [wInfoA, wInfoB] wInfoA "0xb").2.1 (by decide)
       (by decide))
     (by decide)⟩

/-- A filter that removes a key finds nothing under that key. -/
theorem findRow_filter_ne (db : TxDb) (h : String) :
    (db.filter (fun r => r.txHash ≠ h)).find? (fun r => r.txHash == h) = none := by
  rw [List.find?_eq_none]
  intro r hr
  have hne := (List.mem_filter.mp hr).2
  simpa using hne

/-- Same for the labels table. -/
theorem findLabel_filter_ne (db : LabelMap) (k : String) :
    (db.filter (fun p => p.1 ≠ k)).find? (fun p => p.1 == k) = none := by
  rw [List.find?_eq_none]
  intro p hp
  have hne := (List.mem_filter.mp hp).2
  simpa using hne

/-- The detail put is a last-write-wins upsert: afterwards the row under the
key is exactly the written one. -/
theorem findRow_add_self (db : TxDb) (h ci qa : String) (d : RawDetail) :
    findRow (add_transaction_detail db h ci qa d) h
      = some { txHash := h, chainIndex := ci, queriedAddress := qa, detail := d,
               ai_analysis := none } := by
  unfold findRow add_transaction_detail
  rw [List.find?_append, findRow_filter_ne]
  simp [List.find?]

/-- The detail put is idempotent. -/
theorem add_transaction_detail_idem (db : TxDb) (h ci qa : String) (d : RawDetail) :
    add_transaction_detail (add_transaction_detail db h ci qa d) h ci qa d
      = add_transaction_detail db h ci qa d := by
  unfold add_transaction_detail
  rw [List.filter_append, List.filter_filter]
  simp

/-- The label upsert is last-write-wins. -/
theorem lookupLabel_upsert_self (db : LabelMap) (k : String) (v : AddressLabel) :
    lookupLabel (upsertLabel db k v) k = some v := by
  unfold lookupLabel upsertLabel
  rw [List.find?_append, findLabel_filter_ne]
  simp [List.find?]

/-- `add_labels` on a single pair is one upsert under the lower-cased key. -/
theorem add_labels_single (db : LabelMap) (k : String) (v : AddressLabel) :
    add_labels db [(k, v)] = upsertLabel db (lowerStr k) v := by
  simp [add_labels]

/-- The label upsert is idempotent. -/
theorem upsertLabel_idem (db : LabelMap) (k : String) (v : AddressLabel) :
    upsertLabel (upsertLabel db k v) k v = upsertLabel db k v := by
  unfold upsertLabel
  rw [List.filter_append, List.filter_filter]
  simp

/-- The analysis update is idempotent. -/
theorem update_ai_analysis_idem (db : TxDb) (h a : String) :
    update_ai_analysis (update_ai_analysis db h a) h a = update_ai_analysis db h a := by
  unfold update_ai_analysis
  rw [List.map_map]
  apply List.map_congr_left
  intro r _
  by_cases hr : r.txHash = h <;> simp [hr]

/-- The analysis update of a missing hash is a no-op (no insert happens). -/
theorem update_ai_analysis_missing (db : TxDb) (h a : String)
    (hnone : findRow db h = none) : update_ai_analysis db h a = db := by
  unfold findRow at hnone
  have hall := List.find?_eq_none.mp hnone
  unfold update_ai_analysis
  conv_rhs => rw [← List.map_id db]
  apply List.map_congr_left
  intro r hr
  have hne : ¬r.txHash = h := by simpa using hall r hr
  simp [hne]

/-- The analysis update rewrites an existing row in place. -/
theorem update_ai_analysis_mem (db : TxDb) (h a : String) (r : DbRow) (hr : r ∈ db)
    (hrh : r.txHash = h) :
    { r with ai_analysis := some a } ∈ update_ai_analysis db h a := by
  unfold update_ai_analysis
  exact List.mem_map.mpr ⟨r, hr, by simp [hrh]⟩

/-- C8 amended: the detail put and the label put are idempotent last-write-wins
upserts; the analysis update is an idempotent last-write-wins update of an
existing row only (a missing hash is a no-op, not an insert); a failing
detail write is caught by the per-item fetch handler (it skips the remaining
writes of that item and the loop moves on) and a failing analysis update is
caught by the per-future handler (the error placeholder replaces the
in-memory analysis and the cache row stays unwritten), so a run whose every
detail write and analysis update may raise still produces a result; but a
failing label batch write propagates to the top-level handler and ends the
run with no result instead of being swallowed. -/
theorem cache_write_semantics_amended (db : TxDb) (ldb : LabelMap) (h ci qa : String)
    (d : RawDetail) (a : String) (k : String) (v v2 : AddressLabel) (w : World)
    (sched : List EnrichedTx → List EnrichedTx) (address : String) :
    (findRow (add_transaction_detail db h ci qa d) h
        = some { txHash := h, chainIndex := ci, queriedAddress := qa, detail := d,
                 ai_analysis := none }) ∧
      (add_transaction_detail (add_transaction_detail db h ci qa d) h ci qa d
        = add_transaction_detail db h ci qa d) ∧
      (lookupLabel (add_labels ldb [(k, v)]) (lowerStr k) = some v) ∧
      (add_labels (add_labels ldb [(k, v)]) [(k, v)] = add_labels ldb [(k, v)]) ∧
      (lookupLabel (add_labels (add_labels ldb [(k, v)]) [(k, v2)]) (lowerStr k) = some v2) ∧
      (update_ai_analysis (update_ai_analysis db h a) h a = update_ai_analysis db h a) ∧
      (findRow db h = none → update_ai_analysis db h a = db) ∧
      (∀ r ∈ db, r.txHash = h → { r with ai_analysis := some a } ∈ update_ai_analysis db h a) ∧
      (∀ (fail : RawDetail → Bool) (addr : String) (db2 : TxDb) (d0 : RawDetail)
          (ds : List RawDetail),
        fail d0 = true → addDetails fail addr db2 (d0 :: ds) = db2) ∧
      (∀ (writeFail : String → Option String)
          (analyze2 : EnrichedTx → Except String (Option String))
          (st : TxMap × TxDb) (tx : EnrichedTx) (o : Option String) (e : String),
        analyze2 tx = .ok o → writeFail tx.txhash = some e →
        dispatchStepF writeFail analyze2 st tx
          = (setAnalysis st.1 tx.txhash ("Failed to analyze: " ++ e), st.2)) ∧
      (w.summary ≠ [] → extract_tx_info_from_summary w.fmt w.summary ≠ [] →
        ¬(newLabelsOf w address ≠ [] ∧ w.labelWriteOk = false) →
        (run_new_analysis w sched address).isSome = true) ∧
      (w.summary ≠ [] → extract_tx_info_from_summary w.fmt w.summary ≠ [] →
        newLabelsOf w address ≠ [] → w.labelWriteOk = false →
        run_new_analysis w sched address = none) := by
  refine ⟨findRow_add_self db h ci qa d, add_transaction_detail_idem db h ci qa d, ?_, ?_, ?_,
    update_ai_analysis_idem db h a, update_ai_analysis_missing db h a,
    update_ai_analysis_mem db h a, ?_, ?_, ?_, ?_⟩
  · rw [add_labels_single]
    exact lookupLabel_upsert_self ldb (lowerStr k) v
  · rw [add_labels_single, add_labels_single]
    exact upsertLabel_idem ldb (lowerStr k) v
  · rw [add_labels_single, add_labels_single]
    exact lookupLabel_upsert_self (upsertLabel ldb (lowerStr k) v) (lowerStr k) v2
  · intro fail addr db2 d0 ds hfail
    simp [addDetails, hfail]
  · intro writeFail analyze2 st tx o e hA hW
    simp only [dispatchStepF, hA, hW]
  · intro h1 h2 h3
    unfold run_new_analysis
    rw [if_neg h1, if_neg h2, if_neg h3]
    rfl
  · intro h1 h2 h3 h4
    unfold run_new_analysis
    rw [if_neg h1, if_neg h2, if_pos (And.intro h3 h4)]

/-- Concrete instance for C8 (amended): the world `wC8` reaches the failing
label write, so its run yields no result, while the run of `wAllWriteFail`,
where every detail write and every analysis update raises, still completes
with a result. -/
theorem cache_write_semantics_amended_witness :
    run_new_analysis wC8 (fun l => l) "0xu" = none ∧
      (run_new_analysis wAllWriteFail (fun l => l) "0xu").isSome = true :=
  ⟨(cache_write_semantics_amended [] [] "0xa" "1" "0xu" wDetailA "text" "0xK" wLabel wLabel
      wC8 (fun l => l) "0xu").2.2.2.2.2.2.2.2.2.2.2 (by decide) (by decide) (by decide) rfl,
   (cache_write_semantics_amended [] [] "0xa" "1" "0xu" wDetailA "text" "0xK" wLabel wLabel
      wAllWriteFail (fun l => l) "0xu").2.2.2.2.2.2.2.2.2.2.1 (by decide) (by decide)
        (by decide)⟩

/-- C8 counterexample: the analysis update on an empty cache inserts nothing
(so it is not an upsert), and a run whose fresh-label write fails produces no
result (the failure is not swallowed), while the same world with a working
label write completes. -/
theorem cache_write_counterexample :
    update_ai_analysis [] "0xa" "text" = [] ∧
      run_new_analysis wC8 (fun l => l) "0xu" = none ∧
      (run_new_analysis { wC8 with labelWriteOk := true } (fun l => l) "0xu").isSome = true := by
  refine ⟨rfl, rfl, rfl⟩

/-- `mapAnalysis` on a cons. -/
theorem mapAnalysis_cons (q : String × EnrichedTx) (l : TxMap) (h : String) :
    mapAnalysis (q :: l) h = if q.1 == h then some q.2.ai_analysis else mapAnalysis l h := by
  unfold mapAnalysis
  rw [List.find?_cons]
  cases hq : (q.1 == h) <;> simp [hq]

/-- `setAnalysis` on a cons. -/
theorem setAnalysis_cons (q : String × EnrichedTx) (l : TxMap) (h s : String) :
    setAnalysis (q :: l) h s
      = (if q.1 = h then (q.1, { q.2 with ai_analysis := some s }) else q)
          :: setAnalysis l h s := rfl

/-- Writing one key leaves other keys of the map untouched. -/
theorem mapAnalysis_setAnalysis_ne (m : TxMap) (h h' s : String) (hne : h' ≠ h) :
    mapAnalysis (setAnalysis m h s) h' = mapAnalysis m h' := by
  induction m with
  | nil => rfl
  | cons q rest ih =>
    by_cases hq : q.1 = h
    · have e1 : setAnalysis (q :: rest) h s
          = (q.1, { q.2 with ai_analysis := some s }) :: setAnalysis rest h s := by
        rw [setAnalysis_cons, if_pos hq]
      rw [e1, mapAnalysis_cons, mapAnalysis_cons]
      have hh : (q.1 == h') = false := by simp [hq, Ne.symm hne]
      simp [hh, ih]
    · have e1 : setAnalysis (q :: rest) h s = q :: setAnalysis rest h s := by
        rw [setAnalysis_cons, if_neg hq]
      rw [e1, mapAnalysis_cons, mapAnalysis_cons]
      by_cases hq' : (q.1 == h') = true <;> simp [hq', ih]

/-- Writing a present key stores the new analysis. -/
theorem mapAnalysis_setAnalysis_self (m : TxMap) (h s : String)
    (hp : (mapAnalysis m h).isSome = true) :
    mapAnalysis (setAnalysis m h s) h = some (some s) := by
  induction m with
  | nil => simp [mapAnalysis] at hp
  | cons q rest ih =>
    by_cases hq : q.1 = h
    · have e1 : setAnalysis (q :: rest) h s
          = (q.1, { q.2 with ai_analysis := some s }) :: setAnalysis rest h s := by
        rw [setAnalysis_cons, if_pos hq]
      rw [e1, mapAnalysis_cons]
      simp [hq]
    · have e1 : setAnalysis (q :: rest) h s = q :: setAnalysis rest h s := by
        rw [setAnalysis_cons, if_neg hq]
      rw [mapAnalysis_cons] at hp
      have hq' : (q.1 == h) = false := by simp [hq]
      rw [hq'] at hp
      rw [e1, mapAnalysis_cons, hq']
      simp only [Bool.false_eq_true, if_false] at hp ⊢
      exact ih hp

/-- `setAnalysis` does not change key presence. -/
theorem mapAnalysis_setAnalysis_isSome (m : TxMap) (h h' s : String) :
    (mapAnalysis (setAnalysis m h s) h').isSome = (mapAnalysis m h').isSome := by
  induction m with
  | nil => rfl
  | cons q rest ih =>
    by_cases hq : q.1 = h
    · have e1 : setAnalysis (q :: rest) h s
          = (q.1, { q.2 with ai_analysis := some s }) :: setAnalysis rest h s := by
        rw [setAnalysis_cons, if_pos hq]
      rw [e1, mapAnalysis_cons, mapAnalysis_cons]
      by_cases hq' : (q.1 == h') = true <;> simp [hq', ih]
    · have e1 : setAnalysis (q :: rest) h s = q :: setAnalysis rest h s := by
        rw [setAnalysis_cons, if_neg hq]
      rw [e1, mapAnalysis_cons, mapAnalysis_cons]
      by_cases hq' : (q.1 == h') = true <;> simp [hq', ih]

/-- `setAnalysis` preserves the key sequence. -/
theorem setAnalysis_keys (m : TxMap) (h s : String) :
    (setAnalysis m h s).map (fun p => p.1) = m.map (fun p => p.1) := by
  unfold setAnalysis
  rw [List.map_map]
  apply List.map_congr_left
  intro p _
  by_cases hp : p.1 = h <;> simp [hp]

/-- `findRow` on a cons. -/
theorem findRow_cons (r : DbRow) (rest : TxDb) (h : String) :
    findRow (r :: rest) h = if r.txHash == h then some r else findRow rest h := by
  unfold findRow
  rw [List.find?_cons]
  cases hr : (r.txHash == h) <;> simp [hr]

/-- `update_ai_analysis` on a cons. -/
theorem update_ai_analysis_cons (r : DbRow) (rest : TxDb) (h a : String) :
    update_ai_analysis (r :: rest) h a
      = (if r.txHash = h then { r with ai_analysis := some a } else r)
          :: update_ai_analysis rest h a := rfl

/-- `findRow` after an analysis update. -/
theorem findRow_update (db : TxDb) (h h' a : String) :
    findRow (update_ai_analysis db h a) h'
      = (findRow db h').map
          (fun r => if r.txHash = h then { r with ai_analysis := some a } else r) := by
  induction db with
  | nil => rfl
  | cons r rest ih =>
    rw [update_ai_analysis_cons, findRow_cons, findRow_cons]
    by_cases hr : r.txHash = h
    · subst hr
      by_cases hr' : r.txHash = h'
      · subst hr'
        simp [ih]
      · have hb : (r.txHash == h') = false := by simp [hr']
        simp [hb, ih]
    · by_cases hr' : r.txHash = h'
      · subst hr'
        simp [hr, ih]
      · have hb : (r.txHash == h') = false := by simp [hr']
        simp [hr, hb, ih]

/-- An analysis update leaves other rows' analyses unchanged. -/
theorem dbAnalysis_update_ne (db : TxDb) (h h' a : String) (hne : h' ≠ h) :
    dbAnalysis (update_ai_analysis db h a) h' = dbAnalysis db h' := by
  unfold dbAnalysis
  rw [findRow_update]
  cases hfr : findRow db h' with
  | none => rfl
  | some r =>
    have hr' : r.txHash = h' := by
      unfold findRow at hfr
      simpa using List.find?_some hfr
    have : ¬r.txHash = h := by rw [hr']; exact hne
    simp [this]

/-- An analysis update of a present row stores the new analysis. -/
theorem dbAnalysis_update_self (db : TxDb) (h a : String)
    (hp : (findRow db h).isSome = true) :
    dbAnalysis (update_ai_analysis db h a) h = some a := by
  unfold dbAnalysis
  rw [findRow_update]
  cases hfr : findRow db h with
  | none => rw [hfr] at hp; simp at hp
  | some r =>
    have hr' : r.txHash = h := by
      unfold findRow at hfr
      simpa using List.find?_some hfr
    simp [hr']

/-- An analysis update does not change row presence. -/
theorem findRow_update_isSome (db : TxDb) (h h' a : String) :
    (findRow (update_ai_analysis db h a) h').isSome = (findRow db h').isSome := by
  rw [findRow_update]
  cases findRow db h' <;> rfl

/-- `runDispatch` on a cons. -/
theorem runDispatch_cons (analyze : EnrichedTx → Except String (Option String))
    (x : EnrichedTx) (rest : List EnrichedTx) (m : TxMap) (db : TxDb) :
    runDispatch analyze (x :: rest) m db
      = runDispatch analyze rest (dispatchStep analyze (m, db) x).1
          (dispatchStep analyze (m, db) x).2 := by
  unfold runDispatch
  rw [List.foldl_cons]

/-- Hashes not belonging to any completed task keep their map analysis. -/
theorem runDispatch_map_untouched (analyze : EnrichedTx → Except String (Option String))
    (h : String) :
    ∀ (completed : List EnrichedTx), (∀ t ∈ completed, t.txhash ≠ h) →
      ∀ (m : TxMap) (db : TxDb),
        mapAnalysis (runDispatch analyze completed m db).1 h = mapAnalysis m h := by
  intro completed
  induction completed with
  | nil => intro _ m db; rfl
  | cons x rest ih =>
    intro hh m db
    have hx : x.txhash ≠ h := hh x (List.mem_cons_self x rest)
    have hrest : ∀ t ∈ rest, t.txhash ≠ h := fun t ht => hh t (List.mem_cons_of_mem _ ht)
    rw [runDispatch_cons]
    cases hA : analyze x with
    | ok o =>
      simp only [dispatchStep, hA]
      rw [ih hrest, mapAnalysis_setAnalysis_ne _ _ _ _ (Ne.symm hx)]
    | error e =>
      simp only [dispatchStep, hA]
      rw [ih hrest, mapAnalysis_setAnalysis_ne _ _ _ _ (Ne.symm hx)]

/-- Hashes not belonging to any completed task keep their cached analysis. -/
theorem runDispatch_db_untouched (analyze : EnrichedTx → Except String (Option String))
    (h : String) :
    ∀ (completed : List EnrichedTx), (∀ t ∈ completed, t.txhash ≠ h) →
      ∀ (m : TxMap) (db : TxDb),
        dbAnalysis (runDispatch analyze completed m db).2 h = dbAnalysis db h := by
  intro completed
  induction completed with
  | nil => intro _ m db; rfl
  | cons x rest ih =>
    intro hh m db
    have hx : x.txhash ≠ h := hh x (List.mem_cons_self x rest)
    have hrest : ∀ t ∈ rest, t.txhash ≠ h := fun t ht => hh t (List.mem_cons_of_mem _ ht)
    rw [runDispatch_cons]
    cases hA : analyze x with
    | ok o =>
      simp only [dispatchStep, hA]
      rw [ih hrest, dbAnalysis_update_ne _ _ _ _ (Ne.symm hx)]
    | error e =>
      simp only [dispatchStep, hA]
      rw [ih hrest]

/-- After the dispatch loop, each task's map entry holds exactly the text of
its outcome, and its cache row holds the text on success and is untouched on
failure. -/
theorem runDispatch_result (analyze : EnrichedTx → Except String (Option String)) :
    ∀ (completed : List EnrichedTx), (completed.map (fun t => t.txhash)).Nodup →
      ∀ t ∈ completed, ∀ (m : TxMap) (db : TxDb),
        (mapAnalysis m t.txhash).isSome = true → (findRow db t.txhash).isSome = true →
        mapAnalysis (runDispatch analyze completed m db).1 t.txhash
            = some (some (outcomeText (analyze t))) ∧
          dbAnalysis (runDispatch analyze completed m db).2 t.txhash
            = (match analyze t with
               | .ok o => some (o.getD "Analysis not available.")
               | .error _ => dbAnalysis db t.txhash) := by
  intro completed
  induction completed with
  | nil => intro _ t ht; cases ht
  | cons x rest ih =>
    intro hnd t ht m db hm hdb
    have hnd' : (rest.map (fun t => t.txhash)).Nodup := (List.nodup_cons.mp hnd).2
    have hxrest : x.txhash ∉ rest.map (fun t => t.txhash) := (List.nodup_cons.mp hnd).1
    rcases List.mem_cons.mp ht with rfl | htr
    · have hrest_ne : ∀ u ∈ rest, u.txhash ≠ t.txhash := by
        intro u hu he
        exact hxrest (he ▸ List.mem_map_of_mem (fun t => t.txhash) hu)
      rw [runDispatch_cons]
      cases hA : analyze t with
      | ok o =>
        simp only [dispatchStep, hA]
        constructor
        · rw [runDispatch_map_untouched analyze t.txhash rest hrest_ne,
            mapAnalysis_setAnalysis_self m t.txhash _ hm]
          simp [outcomeText]
        · rw [runDispatch_db_untouched analyze t.txhash rest hrest_ne,
            dbAnalysis_update_self db t.txhash _ hdb]
      | error e =>
        simp only [dispatchStep, hA]
        constructor
        · rw [runDispatch_map_untouched analyze t.txhash rest hrest_ne,
            mapAnalysis_setAnalysis_self m t.txhash _ hm]
          simp [outcomeText]
        · rw [runDispatch_db_untouched analyze t.txhash rest hrest_ne]
    · have htx : t.txhash ≠ x.txhash := by
        intro he
        exact hxrest (he ▸ List.mem_map_of_mem (fun t => t.txhash) htr)
      rw [runDispatch_cons]
      cases hA : analyze x with
      | ok o =>
        simp only [dispatchStep, hA]
        have hm' : (mapAnalysis (setAnalysis m x.txhash (o.getD "Analysis not available."))
            t.txhash).isSome = true := by
          rw [mapAnalysis_setAnalysis_isSome]; exact hm
        have hdb' : (findRow (update_ai_analysis db x.txhash (o.getD "Analysis not available."))
            t.txhash).isSome = true := by
          rw [findRow_update_isSome]; exact hdb
        obtain ⟨c1, c2⟩ := ih hnd' t htr _ _ hm' hdb'
        refine ⟨c1, ?_⟩
        rw [c2]
        cases hB : analyze t with
        | ok o2 => rfl
        | error e2 => exact dbAnalysis_update_ne db x.txhash t.txhash _ htx
      | error e =>
        simp only [dispatchStep, hA]
        have hm' : (mapAnalysis (setAnalysis m x.txhash ("Failed to analyze: " ++ e))
            t.txhash).isSome = true := by
          rw [mapAnalysis_setAnalysis_isSome]; exact hm
        obtain ⟨c1, c2⟩ := ih hnd' t htr _ _ hm' hdb
        exact ⟨c1, c2⟩

/-- The error placeholder is never the empty string. -/
theorem failed_placeholder_ne_empty (e : String) : "Failed to analyze: " ++ e ≠ "" := by
  intro hc
  have := congrArg String.length hc
  simp [String.length_append] at this
  exact absurd this.1 (by decide)

/-- C7 amended: for any completion order of N analysis tasks of which exactly
one throws, every task ends with a non-empty analysis attached in the map (the
thrown one an error placeholder); every successful result is persisted to the
analysis cache; the thrown task's placeholder is NOT persisted; and the cache
therefore ends the dispatch with N - 1 analysis entries for the N tasks. -/
theorem analysis_failure_isolation_amended
    (analyze : EnrichedTx → Except String (Option String))
    (completed : List EnrichedTx) (m : TxMap) (db : TxDb)
    (hnd : (completed.map (fun t => t.txhash)).Nodup)
    (hm : ∀ t ∈ completed, (mapAnalysis m t.txhash).isSome = true)
    (hdb : ∀ t ∈ completed, (findRow db t.txhash).isSome = true)
    (hempty : ∀ t ∈ completed, dbAnalysis db t.txhash = none)
    (hok : ∀ t ∈ completed, outcomeText (analyze t) ≠ "")
    (hone : completed.countP (fun t => isErr (analyze t)) = 1) :
    (∀ t ∈ completed, ∃ s, s ≠ "" ∧
        mapAnalysis (runDispatch analyze completed m db).1 t.txhash = some (some s)) ∧
      (∀ t ∈ completed, ∀ o, analyze t = .ok o →
        dbAnalysis (runDispatch analyze completed m db).2 t.txhash
          = some (o.getD "Analysis not available.")) ∧
      (∀ t ∈ completed, isErr (analyze t) = true →
        dbAnalysis (runDispatch analyze completed m db).2 t.txhash = none) ∧
      completed.countP
          (fun t => (dbAnalysis (runDispatch analyze completed m db).2 t.txhash).isSome)
        = completed.length - 1 := by
  have key : ∀ t ∈ completed,
      mapAnalysis (runDispatch analyze completed m db).1 t.txhash
          = some (some (outcomeText (analyze t))) ∧
        dbAnalysis (runDispatch analyze completed m db).2 t.txhash
          = (match analyze t with
             | .ok o => some (o.getD "Analysis not available.")
             | .error _ => dbAnalysis db t.txhash) :=
    fun t ht => runDispatch_result analyze completed hnd t ht m db (hm t ht) (hdb t ht)
  refine ⟨?_, ?_, ?_, ?_⟩
  · intro t ht
    exact ⟨outcomeText (analyze t), hok t ht, (key t ht).1⟩
  · intro t ht o hA
    have h2 := (key t ht).2
    rw [hA] at h2
    exact h2
  · intro t ht hA
    have h2 := (key t ht).2
    cases hB : analyze t with
    | ok o => rw [hB] at hA; simp [isErr] at hA
    | error e =>
      rw [hB] at h2
      rw [h2]
      exact hempty t ht
  · have hpt : ∀ t ∈ completed,
        ((dbAnalysis (runDispatch analyze completed m db).2 t.txhash).isSome = true
          ↔ (!isErr (analyze t)) = true) := by
      intro t ht
      have h2 := (key t ht).2
      cases hB : analyze t with
      | ok o => rw [hB] at h2; simp [h2, isErr]
      | error e =>
        rw [hB] at h2
        rw [h2]
        simp [isErr, hempty t ht]
    rw [List.countP_congr hpt]
    have hsplit := List.length_eq_countP_add_countP (fun t => isErr (analyze t)) completed
    have hnot : completed.countP (fun t => !isErr (analyze t))
        = completed.countP (fun a => decide ¬(isErr (analyze a)) = true) := by
      apply List.countP_congr
      intro t _
      cases isErr (analyze t) <;> simp
    rw [hnot]
    omega

/-- Concrete instance for C7 (amended): two tasks, one throwing, leave exactly
one analysis entry in the cache. -/
theorem analysis_failure_isolation_amended_witness :
    wTasks.countP
        (fun t =>
          (dbAnalysis (runDispatch wAnalyzeOneFail wTasks wTaskMap wTaskDb).2 t.txhash).isSome)
      = wTasks.length - 1 :=
  (analysis_failure_isolation_amended wAnalyzeOneFail wTasks wTaskMap wTaskDb
    (by decide) (by decide) (by decide) (by decide) (by decide) (by decide)).2.2.2

/-- C7 counterexample: with N = 2 tasks of which one throws, the analysis
cache ends the dispatch with 1 entry, not N = 2 as claimed. -/
theorem analysis_cache_count_counterexample :
    wTasks.countP
        (fun t =>
          (dbAnalysis (runDispatch wAnalyzeOneFail wTasks wTaskMap wTaskDb).2 t.txhash).isSome)
        = 1 ∧
      ¬(wTasks.countP
          (fun t =>
            (dbAnalysis (runDispatch wAnalyzeOneFail wTasks wTaskMap wTaskDb).2 t.txhash).isSome)
          = 2) := by
  constructor <;> decide

/-- Distinct-key analysis writes to the map commute. -/
theorem setAnalysis_comm (m : TxMap) (h1 s1 h2 s2 : String) (hne : h1 ≠ h2) :
    setAnalysis (setAnalysis m h1 s1) h2 s2 = setAnalysis (setAnalysis m h2 s2) h1 s1 := by
  unfold setAnalysis
  rw [List.map_map, List.map_map]
  apply List.map_congr_left
  intro p _
  by_cases hp1 : p.1 = h1
  · have hp2 : ¬p.1 = h2 := by rw [hp1]; exact hne
    simp [Function.comp_def, hp1, hp2, hne]
  · by_cases hp2 : p.1 = h2 <;> simp [Function.comp_def, hp1, hp2, hne, Ne.symm hne]

/-- Distinct-key analysis updates to the cache commute. -/
theorem update_ai_analysis_comm (db : TxDb) (h1 a1 h2 a2 : String) (hne : h1 ≠ h2) :
    update_ai_analysis (update_ai_analysis db h1 a1) h2 a2
      = update_ai_analysis (update_ai_analysis db h2 a2) h1 a1 := by
  unfold update_ai_analysis
  rw [List.map_map, List.map_map]
  apply List.map_congr_left
  intro r _
  by_cases hr1 : r.txHash = h1
  · have hr2 : ¬r.txHash = h2 := by rw [hr1]; exact hne
    simp [Function.comp_def, hr1, hr2, hne]
  · by_cases hr2 : r.txHash = h2 <;> simp [Function.comp_def, hr1, hr2, hne, Ne.symm hne]

/-- Dispatch steps for tasks with distinct hashes (or for one and the same
task) commute. -/
theorem dispatchStep_comm (analyze : EnrichedTx → Except String (Option String))
    (x y : EnrichedTx) (hxy : x.txhash ≠ y.txhash ∨ x = y) (st : TxMap × TxDb) :
    dispatchStep analyze (dispatchStep analyze st x) y
      = dispatchStep analyze (dispatchStep analyze st y) x := by
  rcases hxy with hne | rfl
  · cases hA : analyze x with
    | ok o =>
      cases hB : analyze y with
      | ok o2 =>
        simp only [dispatchStep, hA, hB]
        exact congrArg₂ Prod.mk (setAnalysis_comm st.1 _ _ _ _ hne)
          (update_ai_analysis_comm st.2 _ _ _ _ hne)
      | error e2 =>
        simp only [dispatchStep, hA, hB]
        exact congrArg₂ Prod.mk (setAnalysis_comm st.1 _ _ _ _ hne) rfl
    | error e =>
      cases hB : analyze y with
      | ok o2 =>
        simp only [dispatchStep, hA, hB]
        exact congrArg₂ Prod.mk (setAnalysis_comm st.1 _ _ _ _ hne) rfl
      | error e2 =>
        simp only [dispatchStep, hA, hB]
        exact congrArg₂ Prod.mk (setAnalysis_comm st.1 _ _ _ _ hne) rfl
  · rfl

/-- The dispatch result is the same for any two completion orders when the
task hashes are pairwise distinct. -/
theorem runDispatch_perm (analyze : EnrichedTx → Except String (Option String))
    (l1 l2 : List EnrichedTx) (hp : l1.Perm l2)
    (hnd : (l1.map (fun t => t.txhash)).Nodup) (m : TxMap) (db : TxDb) :
    runDispatch analyze l1 m db = runDispatch analyze l2 m db := by
  unfold runDispatch
  refine List.Perm.foldl_eq' hp ?_ (m, db)
  intro x hx y hy z
  apply dispatchStep_comm
  rcases eq_or_ne x y with rfl | hne
  · exact Or.inr rfl
  · exact Or.inl (fun he => hne (List.inj_on_of_nodup_map hnd hx hy he))

/-- Fallible-write dispatch steps for tasks with distinct hashes (or for one
and the same task) commute. -/
theorem dispatchStepF_comm (writeFail : String → Option String)
    (analyze : EnrichedTx → Except String (Option String))
    (x y : EnrichedTx) (hxy : x.txhash ≠ y.txhash ∨ x = y) (st : TxMap × TxDb) :
    dispatchStepF writeFail analyze (dispatchStepF writeFail analyze st x) y
      = dispatchStepF writeFail analyze (dispatchStepF writeFail analyze st y) x := by
  rcases hxy with hne | rfl
  · cases hA : analyze x <;> cases hB : analyze y <;>
      cases hWx : writeFail x.txhash <;> cases hWy : writeFail y.txhash <;>
      simp only [dispatchStepF, hA, hB, hWx, hWy] <;>
      first
        | exact congrArg₂ Prod.mk (setAnalysis_comm st.1 _ _ _ _ hne)
            (update_ai_analysis_comm st.2 _ _ _ _ hne)
        | exact congrArg₂ Prod.mk (setAnalysis_comm st.1 _ _ _ _ hne) rfl
  · rfl

/-- The fallible-write dispatch loop on a cons. -/
theorem runDispatchF_cons (writeFail : String → Option String)
    (analyze : EnrichedTx → Except String (Option String))
    (x : EnrichedTx) (rest : List EnrichedTx) (m : TxMap) (db : TxDb) :
    runDispatchF writeFail analyze (x :: rest) m db
      = runDispatchF writeFail analyze rest (dispatchStepF writeFail analyze (m, db) x).1
          (dispatchStepF writeFail analyze (m, db) x).2 := rfl

/-- The fallible-write dispatch result is the same for any two completion
orders when the task hashes are pairwise distinct. -/
theorem runDispatchF_perm (writeFail : String → Option String)
    (analyze : EnrichedTx → Except String (Option String))
    (l1 l2 : List EnrichedTx) (hp : l1.Perm l2)
    (hnd : (l1.map (fun t => t.txhash)).Nodup) (m : TxMap) (db : TxDb) :
    runDispatchF writeFail analyze l1 m db = runDispatchF writeFail analyze l2 m db := by
  unfold runDispatchF
  refine List.Perm.foldl_eq' hp ?_ (m, db)
  intro x hx y hy z
  apply dispatchStepF_comm
  rcases eq_or_ne x y with rfl | hne
  · exact Or.inr rfl
  · exact Or.inl (fun he => hne (List.inj_on_of_nodup_map hnd hx hy he))

/-- With no write failures the fallible-write dispatch loop is exactly the
plain one. -/
theorem runDispatchF_none (analyze : EnrichedTx → Except String (Option String)) :
    ∀ (completed : List EnrichedTx) (m : TxMap) (db : TxDb),
      runDispatchF (fun _ => none) analyze completed m db = runDispatch analyze completed m db := by
  intro completed
  induction completed with
  | nil => intro m db; rfl
  | cons x rest ih =>
    intro m db
    rw [runDispatchF_cons, runDispatch_cons]
    have hstep : dispatchStepF (fun _ => none) analyze (m, db) x = dispatchStep analyze (m, db) x := by
      cases hA : analyze x <;> simp only [dispatchStepF, dispatchStep, hA]
    rw [hstep, ih]

/-- `dedupFirstGo` depends on the seen-set only through membership. -/
theorem dedupFirstGo_congr {α : Type} [DecidableEq α] :
    ∀ (l : List α) (s1 s2 : List α), (∀ a, a ∈ s1 ↔ a ∈ s2) →
      dedupFirstGo s1 l = dedupFirstGo s2 l := by
  intro l
  induction l with
  | nil => intro s1 s2 _; rfl
  | cons x rest ih =>
    intro s1 s2 hs
    unfold dedupFirstGo
    by_cases hx : x ∈ s1
    · rw [if_pos hx, if_pos ((hs x).mp hx)]
      exact ih s1 s2 hs
    · have hrec := ih (x :: s1) (x :: s2) (fun a => by simp [hs a])
      rw [if_neg hx, if_neg (fun hc => hx ((hs x).mpr hc)), hrec]

/-- `dedupFirstGo` on a cons. -/
theorem dedupFirstGo_cons {α : Type} [DecidableEq α] (seen : List α) (x : α) (l : List α) :
    dedupFirstGo seen (x :: l)
      = if x ∈ seen then dedupFirstGo seen l else x :: dedupFirstGo (x :: seen) l := rfl

/-- Keys of the dict build, relative to an accumulator. -/
theorem buildMap_keys_aux {β : Type} :
    ∀ (l : List (String × β)) (m : List (String × β)),
      (l.foldl (fun m p => dictInsert m p.1 p.2) m).map (fun p => p.1)
        = m.map (fun p => p.1)
            ++ dedupFirstGo (m.map (fun p => p.1)) (l.map (fun p => p.1)) := by
  intro l
  induction l with
  | nil => intro m; simp [dedupFirstGo]
  | cons q rest ih =>
    intro m
    rw [List.foldl_cons]
    by_cases hq : q.1 ∈ m.map (fun p => p.1)
    · have hkeys : (dictInsert m q.1 q.2).map (fun p => p.1) = m.map (fun p => p.1) := by
        unfold dictInsert
        rw [if_pos hq, List.map_map]
        apply List.map_congr_left
        intro p _
        by_cases hp : p.1 = q.1 <;> simp [hp]
      rw [ih, hkeys]
      simp only [List.map_cons]
      rw [dedupFirstGo_cons, if_pos hq]
    · have hkeys : (dictInsert m q.1 q.2).map (fun p => p.1)
          = m.map (fun p => p.1) ++ [q.1] := by
        unfold dictInsert
        rw [if_neg hq, List.map_append]
        rfl
      rw [ih, hkeys]
      simp only [List.map_cons]
      rw [dedupFirstGo_cons, if_neg hq,
        dedupFirstGo_congr (rest.map (fun p => p.1)) (m.map (fun p => p.1) ++ [q.1])
          (q.1 :: m.map (fun p => p.1)) (fun a => by simp [or_comm])]
      simp

/-- The dict build's keys are the first occurrences of the input keys. -/
theorem buildMap_keys {β : Type} (l : List (String × β)) :
    (buildMap l).map (fun p => p.1) = dedupFirst (l.map (fun p => p.1)) := by
  have h := buildMap_keys_aux l []
  simpa [buildMap, dedupFirst] using h

/-- `dedupFirstGo` yields pairwise-distinct values avoiding the seen-set. -/
theorem dedupFirstGo_nodup {α : Type} [DecidableEq α] :
    ∀ (l : List α) (seen : List α),
      (dedupFirstGo seen l).Nodup ∧ ∀ a ∈ dedupFirstGo seen l, a ∉ seen := by
  intro l
  induction l with
  | nil => intro seen; exact ⟨List.nodup_nil, by simp [dedupFirstGo]⟩
  | cons x rest ih =>
    intro seen
    unfold dedupFirstGo
    by_cases hx : x ∈ seen
    · rw [if_pos hx]
      exact ih seen
    · rw [if_neg hx]
      obtain ⟨h1, h2⟩ := ih (x :: seen)
      refine ⟨List.nodup_cons.mpr ⟨?_, h1⟩, ?_⟩
      · intro hc
        exact (h2 x hc) (List.mem_cons_self x seen)
      · intro a ha
        rcases List.mem_cons.mp ha with rfl | ha'
        · exact hx
        · exact fun hc => (h2 a ha') (List.mem_cons_of_mem _ hc)

/-- First-occurrence dedup yields pairwise-distinct values. -/
theorem dedupFirst_nodup {α : Type} [DecidableEq α] (l : List α) : (dedupFirst l).Nodup :=
  (dedupFirstGo_nodup l []).1

/-- Key-value coherence is preserved by the dict build. -/
theorem buildMap_coherent {β : Type} (f : β → String) :
    ∀ (l : List (String × β)) (m : List (String × β)),
      (∀ q ∈ l, f q.2 = q.1) → (∀ q ∈ m, f q.2 = q.1) →
      ∀ p ∈ l.foldl (fun m p => dictInsert m p.1 p.2) m, f p.2 = p.1 := by
  intro l
  induction l with
  | nil => intro m _ hm p hp; exact hm p hp
  | cons q rest ih =>
    intro m hl hm p hp
    rw [List.foldl_cons] at hp
    have hq : f q.2 = q.1 := hl q (List.mem_cons_self q rest)
    have hl' : ∀ r ∈ rest, f r.2 = r.1 := fun r hr => hl r (List.mem_cons_of_mem _ hr)
    have hm' : ∀ r ∈ dictInsert m q.1 q.2, f r.2 = r.1 := by
      intro r hr
      unfold dictInsert at hr
      by_cases hin : q.1 ∈ m.map (fun p => p.1)
      · rw [if_pos hin] at hr
        rcases List.mem_map.mp hr with ⟨r0, hr0, heq⟩
        by_cases h0 : r0.1 = q.1
        · rw [if_pos h0] at heq
          rw [← heq]
          exact hq
        · rw [if_neg h0] at heq
          rw [← heq]
          exact hm r0 hr0
      · rw [if_neg hin] at hr
        rcases List.mem_append.mp hr with hr' | hr'
        · exact hm r hr'
        · have := List.mem_singleton.mp hr'
          subst this
          exact hq
    exact ih (dictInsert m q.1 q.2) hl' hm' p hp

/-- Keys of the enriched map are the keys of the dict build. -/
theorem emapOf_keys (w : World) (address : String) :
    (emapOf w address).map (fun p => p.1) = (pmapOf w address).map (fun p => p.1) := by
  unfold emapOf
  rw [List.map_map]
  rfl

/-- Attaching cached analyses preserves the key sequence. -/
theorem withCachedOf_keys (w : World) (address : String) :
    (withCachedOf w address).map (fun p => p.1) = (emapOf w address).map (fun p => p.1) := by
  unfold withCachedOf
  rw [List.map_map]
  apply List.map_congr_left
  intro p _
  cases hc : cachedAnalysisFor (cachedRowsOf w) p.1 <;> simp [hc]

/-- The dispatch loop preserves the key sequence of the map. -/
theorem runDispatch_keys (analyze : EnrichedTx → Except String (Option String)) :
    ∀ (completed : List EnrichedTx) (m : TxMap) (db : TxDb),
      (runDispatch analyze completed m db).1.map (fun p => p.1) = m.map (fun p => p.1) := by
  intro completed
  induction completed with
  | nil => intro m db; rfl
  | cons x rest ih =>
    intro m db
    rw [runDispatch_cons]
    cases hA : analyze x with
    | ok o =>
      simp only [dispatchStep, hA]
      rw [ih, setAnalysis_keys]
    | error e =>
      simp only [dispatchStep, hA]
      rw [ih, setAnalysis_keys]

/-- The fallible-write dispatch loop preserves the key sequence of the map. -/
theorem runDispatchF_keys (writeFail : String → Option String)
    (analyze : EnrichedTx → Except String (Option String)) :
    ∀ (completed : List EnrichedTx) (m : TxMap) (db : TxDb),
      (runDispatchF writeFail analyze completed m db).1.map (fun p => p.1)
        = m.map (fun p => p.1) := by
  intro completed
  induction completed with
  | nil => intro m db; rfl
  | cons x rest ih =>
    intro m db
    rw [runDispatchF_cons]
    cases hA : analyze x with
    | ok o =>
      cases hW : writeFail x.txhash <;> simp only [dispatchStepF, hA, hW] <;>
        rw [ih, setAnalysis_keys]
    | error e =>
      simp only [dispatchStepF, hA]
      rw [ih, setAnalysis_keys]

/-- `setAnalysis` preserves key-value coherence. -/
theorem setAnalysis_coherent (m : TxMap) (h s : String)
    (hm : ∀ p ∈ m, p.2.txhash = p.1) : ∀ p ∈ setAnalysis m h s, p.2.txhash = p.1 := by
  intro p hp
  unfold setAnalysis at hp
  rcases List.mem_map.mp hp with ⟨p0, hp0, heq⟩
  by_cases h0 : p0.1 = h
  · rw [if_pos h0] at heq
    rw [← heq]
    exact hm p0 hp0
  · rw [if_neg h0] at heq
    rw [← heq]
    exact hm p0 hp0

/-- The dispatch loop preserves key-value coherence. -/
theorem runDispatch_coherent (analyze : EnrichedTx → Except String (Option String)) :
    ∀ (completed : List EnrichedTx) (m : TxMap) (db : TxDb),
      (∀ p ∈ m, p.2.txhash = p.1) →
      ∀ p ∈ (runDispatch analyze completed m db).1, p.2.txhash = p.1 := by
  intro completed
  induction completed with
  | nil => intro m db hm; exact hm
  | cons x rest ih =>
    intro m db hm
    rw [runDispatch_cons]
    cases hA : analyze x with
    | ok o =>
      simp only [dispatchStep, hA]
      exact ih _ _ (setAnalysis_coherent m _ _ hm)
    | error e =>
      simp only [dispatchStep, hA]
      exact ih _ _ (setAnalysis_coherent m _ _ hm)

/-- The fallible-write dispatch loop preserves key-value coherence. -/
theorem runDispatchF_coherent (writeFail : String → Option String)
    (analyze : EnrichedTx → Except String (Option String)) :
    ∀ (completed : List EnrichedTx) (m : TxMap) (db : TxDb),
      (∀ p ∈ m, p.2.txhash = p.1) →
      ∀ p ∈ (runDispatchF writeFail analyze completed m db).1, p.2.txhash = p.1 := by
  intro completed
  induction completed with
  | nil => intro m db hm; exact hm
  | cons x rest ih =>
    intro m db hm
    rw [runDispatchF_cons]
    cases hA : analyze x with
    | ok o =>
      cases hW : writeFail x.txhash <;> simp only [dispatchStepF, hA, hW] <;>
        exact ih _ _ (setAnalysis_coherent m _ _ hm)
    | error e =>
      simp only [dispatchStepF, hA]
      exact ih _ _ (setAnalysis_coherent m _ _ hm)

/-- Every entry of the enriched map has its own hash as key. -/
theorem emapOf_coherent (w : World) (address : String) :
    ∀ p ∈ emapOf w address, p.2.txhash = p.1 := by
  intro p hp
  unfold emapOf at hp
  rcases List.mem_map.mp hp with ⟨p0, hp0, heq⟩
  have hco : ∀ q ∈ pmapOf w address, q.2.txhash = q.1 := by
    unfold pmapOf buildMap
    apply buildMap_coherent (fun t : CleanedTx => t.txhash)
    · intro q hq
      rcases List.mem_map.mp hq with ⟨t, _, rfl⟩
      rfl
    · intro q hq
      cases hq
  rw [← heq]
  exact hco p0 hp0

/-- Every entry of the cached-analysis map has its own hash as key. -/
theorem withCachedOf_coherent (w : World) (address : String) :
    ∀ p ∈ withCachedOf w address, p.2.txhash = p.1 := by
  intro p hp
  unfold withCachedOf at hp
  rcases List.mem_map.mp hp with ⟨p0, hp0, heq⟩
  have h0 := emapOf_coherent w address p0 hp0
  cases hc : cachedAnalysisFor (cachedRowsOf w) p0.1 <;> rw [hc] at heq <;> rw [← heq] <;>
    exact h0

/-- The submitted analysis tasks have pairwise-distinct hashes. -/
theorem toAnalyzeOf_keys_nodup (w : World) (address : String) :
    ((toAnalyzeOf w address).map (fun t => t.txhash)).Nodup := by
  unfold toAnalyzeOf
  rw [List.map_map]
  have hco : ∀ p ∈ (emapOf w address).filter
      (fun p => (cachedAnalysisFor (cachedRowsOf w) p.1).isNone), p.2.txhash = p.1 :=
    fun p hp => emapOf_coherent w address p (List.mem_filter.mp hp).1
  have heq : List.map ((fun t : EnrichedTx => t.txhash) ∘ (fun p => p.2))
      ((emapOf w address).filter (fun p => (cachedAnalysisFor (cachedRowsOf w) p.1).isNone))
      = List.map (fun p => p.1)
        ((emapOf w address).filter
          (fun p => (cachedAnalysisFor (cachedRowsOf w) p.1).isNone)) :=
    List.map_congr_left (fun p hp => hco p hp)
  rw [heq]
  have hsub : (((emapOf w address).filter
      (fun p => (cachedAnalysisFor (cachedRowsOf w) p.1).isNone)).map (fun p => p.1)).Sublist
        ((emapOf w address).map (fun p => p.1)) :=
    List.Sublist.map _ (List.filter_sublist _)
  have hbig : ((emapOf w address).map (fun p => p.1)).Nodup := by
    rw [emapOf_keys]
    unfold pmapOf
    rw [buildMap_keys]
    exact dedupFirst_nodup _
  exact List.Nodup.sublist hsub hbig

/-- The whole run result is independent of the completion order. -/
theorem run_sched_independent (w : World) (address : String)
    (sched : List EnrichedTx → List EnrichedTx)
    (hp : (sched (toAnalyzeOf w address)).Perm (toAnalyzeOf w address)) :
    run_new_analysis w sched address = run_new_analysis w (fun l => l) address := by
  unfold run_new_analysis
  by_cases h1 : w.summary = []
  · rw [if_pos h1, if_pos h1]
  rw [if_neg h1, if_neg h1]
  by_cases h2 : extract_tx_info_from_summary w.fmt w.summary = []
  · rw [if_pos h2, if_pos h2]
  rw [if_neg h2, if_neg h2]
  by_cases h3 : newLabelsOf w address ≠ [] ∧ w.labelWriteOk = false
  · rw [if_pos h3, if_pos h3]
  rw [if_neg h3, if_neg h3]
  have hnd : ((sched (toAnalyzeOf w address)).map (fun t => t.txhash)).Nodup := by
    rw [(hp.map (fun t => t.txhash)).nodup_iff]
    exact toAnalyzeOf_keys_nodup w address
  have hrd : runDispatchF w.analysisWriteFail w.analyze (sched (toAnalyzeOf w address))
      (withCachedOf w address) (fetchPhase w address).2
      = runDispatchF w.analysisWriteFail w.analyze (toAnalyzeOf w address)
        (withCachedOf w address) (fetchPhase w address).2 :=
    runDispatchF_perm w.analysisWriteFail w.analyze _ _ hp hnd _ _
  simp only [hrd]

/-- C3 amended: the analyses corpus is independent of the worker-pool
completion order, but its order follows the processed-details map rather than
the deduplicated identifier list: the final transactions' hashes are the
first occurrences of the hashes of the cached details followed by the fetched
details, and the corpus is the in-order selection of their non-empty
analyses. -/
theorem corpus_order_amended (w : World) (address : String)
    (sched : List EnrichedTx → List EnrichedTx)
    (hp : (sched (toAnalyzeOf w address)).Perm (toAnalyzeOf w address)) :
    run_new_analysis w sched address = run_new_analysis w (fun l => l) address ∧
      ∀ r, run_new_analysis w sched address = some r →
        r.finalTxs.map (fun t => t.txhash)
            = dedupFirst ((r.cachedDetails ++ r.fetchedDetails).map (fun d => d.txhash)) ∧
          r.corpus = r.finalTxs.filterMap (fun t => analysisText t.ai_analysis) := by
  refine ⟨run_sched_independent w address sched hp, ?_⟩
  intro r hr
  unfold run_new_analysis at hr
  by_cases h1 : w.summary = []
  · rw [if_pos h1] at hr; cases hr
  rw [if_neg h1] at hr
  by_cases h2 : extract_tx_info_from_summary w.fmt w.summary = []
  · rw [if_pos h2] at hr; cases hr
  rw [if_neg h2] at hr
  by_cases h3 : newLabelsOf w address ≠ [] ∧ w.labelWriteOk = false
  · rw [if_pos h3] at hr; cases hr
  rw [if_neg h3] at hr
  have hrr := Option.some.inj hr
  subst hrr
  constructor
  · show ((runDispatchF w.analysisWriteFail w.analyze (sched (toAnalyzeOf w address))
        (withCachedOf w address) (fetchPhase w address).2).1.map (fun p => p.2)).map
          (fun t => t.txhash)
      = dedupFirst (((cachedRowsOf w).map (fun r => r.detail)
          ++ (fetchPhase w address).1).map (fun d => d.txhash))
    rw [List.map_map]
    have hco : ∀ p ∈ (runDispatchF w.analysisWriteFail w.analyze (sched (toAnalyzeOf w address))
        (withCachedOf w address) (fetchPhase w address).2).1, p.2.txhash = p.1 :=
      runDispatchF_coherent w.analysisWriteFail w.analyze _ _ _
        (withCachedOf_coherent w address)
    have hmt : List.map ((fun t : EnrichedTx => t.txhash) ∘ (fun p => p.2))
        (runDispatchF w.analysisWriteFail w.analyze (sched (toAnalyzeOf w address))
          (withCachedOf w address) (fetchPhase w address).2).1
        = List.map (fun p => p.1)
          (runDispatchF w.analysisWriteFail w.analyze (sched (toAnalyzeOf w address))
            (withCachedOf w address) (fetchPhase w address).2).1 :=
      List.map_congr_left (fun p hpm => hco p hpm)
    rw [hmt, runDispatchF_keys, withCachedOf_keys, emapOf_keys]
    unfold pmapOf
    rw [buildMap_keys, List.map_map]
    show dedupFirst ((processedOf w address).map
        ((fun p : String × CleanedTx => p.1) ∘ (fun t => (t.txhash, t))))
      = dedupFirst ((allRawOf w address).map (fun d => d.txhash))
    unfold processedOf process_and_clean_details
    rw [List.map_map]
    rfl
  · show (runDispatchF w.analysisWriteFail w.analyze (sched (toAnalyzeOf w address))
        (withCachedOf w address) (fetchPhase w address).2).1.filterMap
          (fun p => analysisText p.2.ai_analysis)
      = ((runDispatchF w.analysisWriteFail w.analyze (sched (toAnalyzeOf w address))
          (withCachedOf w address) (fetchPhase w address).2).1.map (fun p => p.2)).filterMap
            (fun t => analysisText t.ai_analysis)
    rw [List.filterMap_map]
    rfl

/-- Concrete instance for C3 (amended): in the run `wC3` a reversed
completion order yields the same result as the submission order. -/
theorem corpus_order_amended_witness :
    run_new_analysis wC3 List.reverse "0xu" = run_new_analysis wC3 (fun l => l) "0xu" :=
  (corpus_order_amended wC3 "0xu" List.reverse (List.reverse_perm _)).1

/-- C3 counterexample: in the run `wC3` the deduplicated identifier list is
`[0xa, 0xb]` but the corpus lists the analyses in processed order (cached
`0xb` first, then fetched `0xa`), not in identifier order. -/
theorem corpus_order_counterexample :
    (run_new_analysis wC3 (fun l => l) "0xu").map (fun r => r.deduped.map (fun t => t.txHash))
        = some [some "0xa", some "0xb"] ∧
      (run_new_analysis wC3 (fun l => l) "0xu").map (fun r => r.corpus)
        = some ["an-0xb", "an-0xa"] ∧
      (["an-0xb", "an-0xa"] : List String) ≠ ["an-0xa", "an-0xb"] := by
  refine ⟨rfl, rfl, by decide⟩
